import Mathlib

/-!
Shallow embedding of the lazyseq repository (lazyseq.py, primes.py,
potencias.py) and proofs about it.

Conventions of the embedding:
* A Python iterator that never raises StopIteration is modelled by the pair
  of a total function `stream : Nat → T` (the values it will ever yield, in
  order) and a counter `pos` (how many values have been consumed so far).
* Mutation of `self._cache` is modelled by explicit state passing: every
  operation that may force the producer returns the new state.
* A Python `while` loop is modelled by a fuel-indexed tail recursion; the
  theorems show the result is independent of the fuel once the fuel is
  large enough for the loop to terminate.
* `raise` is modelled by `Except` / an error component.
-/

set_option linter.unusedVariables false

/-- Python exceptions raised by the code under study.  `valueErr x cls`
models `ValueError(f-string of x and cls)` raised by `LazySortedSequence.index`:
it carries the queried value and `self.__class__.__name__`. -/
inductive PyErr : Type where
  | overflowErr : PyErr
  | indexErr : PyErr
  | valueErr : Nat → String → PyErr
  deriving DecidableEq

/-- `sys.maxsize` on CPython 64-bit; `INFINITE = sys.maxsize` in lazyseq.py. -/
def INFINITE : Nat := 2 ^ 63 - 1

/-- State of a `LazySequence[T]`: the cached prefix `_cache`, and the
iterator modelled as (`stream`, `pos`). -/
structure LazySeq (T : Type) where
  cache : List T
  stream : Nat → T
  pos : Nat

namespace LazySeq

variable {T : Type}

/-- `self.size`, which is `len(self._cache)`. -/
def size (s : LazySeq T) : Nat := s.cache.length

/-- `self.last` (as used by the sorted layer where `size > 0` holds):
`self._cache[-1]`, defaulting to 0 for the empty cache. -/
def lastD (s : LazySeq Nat) : Nat := s.cache.getLastD 0

/-- `__next__`: `x = next(self.iterator); self._cache.append(x); return x`. -/
def pullNext (s : LazySeq T) : T × LazySeq T :=
  (s.stream s.pos, ⟨s.cache ++ [s.stream s.pos], s.stream, s.pos + 1⟩)

/-- `self._cache.extend(islice(self.iterator, k))` for an iterator that
still has at least `k` values. -/
def produceTo (s : LazySeq T) (k : Nat) : LazySeq T :=
  ⟨s.cache ++ (List.range k).map (fun j => s.stream (s.pos + j)), s.stream, s.pos + k⟩

/-- `__getitem_int__`: negative index raises `OverflowError`; an index past
the cache extends the cache by `idx - self.size + 1` produced values; then
`self._cache[idx]` is returned. -/
def getitem_int [Inhabited T] (s : LazySeq T) (idx : Int) : Except PyErr (T × LazySeq T) :=
  if idx < 0 then .error .overflowErr
  else
    let i := idx.toNat
    if s.size ≤ i then
      let s2 := produceTo s (i - s.size + 1)
      .ok (s2.cache.getD i default, s2)
    else
      .ok (s.cache.getD i default, s)

/-- The list comprehension `[self[i] for i in rng]`: sequential
`__getitem_int__` calls threading the mutated state, aborting on the first
error (none occurs for the nonnegative indices a slice produces). -/
def getMany [Inhabited T] (s : LazySeq T) : List Int → Except PyErr (List T × LazySeq T)
  | [] => .ok ([], s)
  | i :: is =>
    match getitem_int s i with
    | .error e => .error e
    | .ok (v, s2) =>
      match getMany s2 is with
      | .error e => .error e
      | .ok (vs, s3) => .ok (v :: vs, s3)

/-- CPython normalisation of one slice component against a sequence of
length `len` (here `len = INFINITE`, from `range(INFINITE)[sl]`), for a
step-1 slice: `None` becomes the default, a negative component is offset
by `len` and clamped at 0, a nonnegative one is clamped at `len`. -/
def normIdx (len : Nat) (dflt : Nat) : Option Int → Nat
  | none => dflt
  | some a => if a < 0 then (len + a).toNat else min a.toNat len

/-- `__getitem_slice__` for a step-1 slice `slice(a, b)`:
`rng = range(INFINITE)[sl]; return [self[i] for i in rng]`. -/
def getitem_slice [Inhabited T] (s : LazySeq T) (a b : Option Int) :
    Except PyErr (List T × LazySeq T) :=
  let lo := normIdx INFINITE 0 a
  let hi := normIdx INFINITE INFINITE b
  getMany s ((List.range' lo (hi - lo) 1).map Int.ofNat)

/-- The virtual infinite sequence a state denotes: cached values first,
then the values the producer will yield. -/
def fullVal [Inhabited T] (s : LazySeq T) (i : Nat) : T :=
  if i < s.size then s.cache.getD i default else s.stream (s.pos + (i - s.size))

/-- `s2` is the result of forcing `s` zero or more times: the stream is
unchanged, and the cache grew exactly by the values the producer yielded,
in order. -/
def Extends (s s2 : LazySeq T) : Prop :=
  s2.stream = s.stream ∧ s.pos ≤ s2.pos ∧
    s2.cache = s.cache ++ (List.range (s2.pos - s.pos)).map (fun j => s.stream (s.pos + j))

/-- The cache holds exactly the values produced so far (the invariant of a
`LazySequence` built by `__init__`, whose cache starts empty). -/
def Faithful (s : LazySeq T) : Prop :=
  s.cache = (List.range s.pos).map s.stream

end LazySeq

namespace LazySeq

/-- CPython `bisect_left(a, x, lo, hi)` main loop, fuel-indexed:
`while lo < hi: mid = (lo+hi)//2; (lo, hi) = (mid+1, hi) if a[mid] < x else (lo, mid)`. -/
def bisectLoop (a : List Nat) (x : Nat) : Nat → Nat → Nat → Nat
  | 0, lo, _ => lo
  | fuel+1, lo, hi =>
    if lo < hi then
      let mid := (lo + hi) / 2
      if a.getD mid 0 < x then bisectLoop a x fuel (mid + 1) hi
      else bisectLoop a x fuel lo mid
    else lo

/-- `bisect.bisect_left(a, x)`; `a.length` fuel suffices since the
interval shrinks at every iteration. -/
def bisect_left (a : List Nat) (x : Nat) : Nat := bisectLoop a x a.length 0 a.length

/-- `while x > next(self): pass` of `LazySortedSequence.insertpos`,
fuel-indexed.  Returns the state after the loop (the value that stopped
the loop is the last value appended to the cache). -/
def insertposLoop (s : LazySeq Nat) (x : Nat) : Nat → LazySeq Nat
  | 0 => s
  | fuel+1 =>
    let p := pullNext s
    if x > p.1 then insertposLoop p.2 x fuel else p.2

/-- `LazySortedSequence.insertpos`. -/
def insertpos (s : LazySeq Nat) (x : Nat) (fuel : Nat) : Nat × LazySeq Nat :=
  if 0 < s.size ∧ x ≤ s.lastD then (bisect_left s.cache x, s)
  else
    let s2 := insertposLoop s x fuel
    (s2.size - 1, s2)

/-- `LazySortedSequence.__contains__`. -/
def lss_contains (s : LazySeq Nat) (x : Nat) (fuel : Nat) : Bool × LazySeq Nat :=
  let r := insertpos s x fuel
  (x == r.2.cache.getD r.1 0, r.2)

/-- `LazySortedSequence.index`; `cls` stands for `self.__class__.__name__`.
The state component records the cache mutations even when the error is
raised. -/
def lss_index (s : LazySeq Nat) (x : Nat) (cls : String) (fuel : Nat) :
    Except PyErr Nat × LazySeq Nat :=
  let r := insertpos s x fuel
  if x == r.2.cache.getD r.1 0 then (.ok r.1, r.2)
  else (.error (.valueErr x cls), r.2)

end LazySeq

namespace LazySeq

variable {T : Type}

theorem getD_range_map (f : Nat → T) (k j : Nat) (d : T) :
    ((List.range k).map f).getD j d = if j < k then f j else d := by
  rw [List.getD_eq_getElem?_getD, List.getElem?_map]
  by_cases h : j < k
  · rw [List.getElem?_range h]
    simp [h]
  · rw [List.getElem?_eq_none (by simpa using Nat.le_of_not_lt h)]
    simp [h]

theorem map_stream_split (f : Nat → T) (p a b : Nat) :
    (List.range (a + b)).map (fun j => f (p + j)) =
      (List.range a).map (fun j => f (p + j)) ++ (List.range b).map (fun j => f (p + a + j)) := by
  rw [List.range_add, List.map_append, List.map_map]
  congr 1
  apply List.map_congr_left
  intro x _
  simp only [Function.comp_apply]
  congr 1
  omega

theorem extends_refl (s : LazySeq T) : Extends s s := by
  refine ⟨rfl, Nat.le_refl _, ?_⟩
  simp

theorem extends_trans {s s2 s3 : LazySeq T} (h : Extends s s2) (h2 : Extends s2 s3) :
    Extends s s3 := by
  obtain ⟨hst, hle, hc⟩ := h
  obtain ⟨hst2, hle2, hc2⟩ := h2
  refine ⟨hst2.trans hst, hle.trans hle2, ?_⟩
  rw [hc2, hc, hst]
  have hsplit : s3.pos - s.pos = (s2.pos - s.pos) + (s3.pos - s2.pos) := by omega
  rw [hsplit, map_stream_split, List.append_assoc]
  congr 2
  apply List.map_congr_left
  intro x _
  congr 1
  omega

theorem Extends.size_eq {s s2 : LazySeq T} (h : Extends s s2) :
    s2.size = s.size + (s2.pos - s.pos) := by
  obtain ⟨_, _, hc⟩ := h
  simp [size, hc]

theorem Extends.stream_eq {s s2 : LazySeq T} (h : Extends s s2) : s2.stream = s.stream := h.1

theorem Extends.pos_le {s s2 : LazySeq T} (h : Extends s s2) : s.pos ≤ s2.pos := h.2.1

theorem Extends.getD_lt [Inhabited T] {s s2 : LazySeq T} (h : Extends s s2) {i : Nat}
    (hi : i < s.size) (d : T) : s2.cache.getD i d = s.cache.getD i d := by
  obtain ⟨_, _, hc⟩ := h
  rw [hc, List.getD_eq_getElem?_getD, List.getElem?_append,
    if_pos (by simpa [size] using hi), ← List.getD_eq_getElem?_getD]

theorem Extends.getD_produced [Inhabited T] {s s2 : LazySeq T} (h : Extends s s2) {i : Nat}
    (hi : s.size ≤ i) (hi2 : i < s2.size) (d : T) :
    s2.cache.getD i d = s.stream (s.pos + (i - s.size)) := by
  have hsz := h.size_eq
  obtain ⟨_, _, hc⟩ := h
  have hlen : s.cache.length ≤ i := by simpa [size] using hi
  have hlt : i - s.cache.length < s2.pos - s.pos := by
    simp only [size] at hsz hi2
    omega
  rw [hc, List.getD_eq_getElem?_getD, List.getElem?_append_right hlen, List.getElem?_map,
    List.getElem?_range hlt]
  simp [size]

theorem Extends.fullVal_eq [Inhabited T] {s s2 : LazySeq T} (h : Extends s s2) :
    fullVal s2 = fullVal s := by
  funext i
  have hsz := h.size_eq
  have hpos := h.pos_le
  by_cases hi : i < s.size
  · rw [fullVal, fullVal, if_pos hi, if_pos (by omega), h.getD_lt hi]
  · by_cases hi2 : i < s2.size
    · rw [fullVal, fullVal, if_pos hi2, if_neg hi, h.getD_produced (Nat.le_of_not_lt hi) hi2]
    · rw [fullVal, fullVal, if_neg hi2, if_neg hi, h.stream_eq]
      congr 1
      omega

theorem Extends.faithful {s s2 : LazySeq T} (h : Extends s s2) (hf : Faithful s) :
    Faithful s2 := by
  have hle := h.pos_le
  obtain ⟨hst, _, hc⟩ := h
  rw [Faithful, hc, hf, hst]
  have hpos : s2.pos = s.pos + (s2.pos - s.pos) := by omega
  rw [hpos, List.range_add, List.map_append, List.map_map]
  have harg : s.pos + (s2.pos - s.pos) - s.pos = s2.pos - s.pos := by omega
  rw [harg]
  have h2 : List.map (s.stream ∘ fun x => s.pos + x) (List.range (s2.pos - s.pos)) =
      List.map (fun j => s.stream (s.pos + j)) (List.range (s2.pos - s.pos)) := by
    apply List.map_congr_left
    intro a _
    simp
  rw [h2]

theorem produceTo_extends [Inhabited T] (s : LazySeq T) (k : Nat) :
    Extends s (produceTo s k) := by
  refine ⟨rfl, Nat.le_add_right _ _, ?_⟩
  simp [produceTo]

theorem produceTo_size (s : LazySeq T) (k : Nat) : (produceTo s k).size = s.size + k := by
  simp [produceTo, size]

theorem produceTo_pos (s : LazySeq T) (k : Nat) : (produceTo s k).pos = s.pos + k := rfl

theorem pullNext_extends (s : LazySeq T) : Extends s (pullNext s).2 := by
  refine ⟨rfl, Nat.le_succ _, ?_⟩
  have hr : List.range ((pullNext s).2.pos - s.pos) = [0] := by
    have h1 : (pullNext s).2.pos - s.pos = 1 := by
      show s.pos + 1 - s.pos = 1
      omega
    rw [h1]
    simp [List.range_succ]
  rw [hr]
  simp [pullNext]

/-- The state a `__getitem_int__` call at nonnegative `i` leaves behind. -/
def forceTo [Inhabited T] (s : LazySeq T) (i : Nat) : LazySeq T :=
  if s.size ≤ i then produceTo s (i - s.size + 1) else s

theorem forceTo_extends [Inhabited T] (s : LazySeq T) (i : Nat) : Extends s (forceTo s i) := by
  rw [forceTo]
  split
  · exact produceTo_extends s _
  · exact extends_refl s

theorem forceTo_size [Inhabited T] (s : LazySeq T) (i : Nat) :
    (forceTo s i).size = max s.size (i + 1) := by
  rw [forceTo]
  split
  · rw [produceTo_size]
    omega
  · omega

/-- Characterisation of `__getitem_int__` at a nonnegative index: it
returns the `i`-th value of the virtual sequence and forces the cache
exactly up to `i`. -/
theorem getitem_int_nat [Inhabited T] (s : LazySeq T) (i : Nat) :
    getitem_int s (Int.ofNat i) = .ok (fullVal s i, forceTo s i) := by
  rw [getitem_int, if_neg (by exact Int.not_lt.mpr (Int.ofNat_nonneg i))]
  have htn : (Int.ofNat i).toNat = i := rfl
  simp only [htn]
  by_cases h : s.size ≤ i
  · rw [if_pos h, forceTo, if_pos h]
    have hext := produceTo_extends (T := T) s (i - s.size + 1)
    have : (produceTo s (i - s.size + 1)).cache.getD i default = fullVal s i := by
      rw [hext.getD_produced h (by rw [produceTo_size]; omega), fullVal, if_neg (by omega)]
    rw [this]
  · rw [if_neg h, forceTo, if_neg h, fullVal, if_pos (by omega)]

theorem getitem_int_neg [Inhabited T] (s : LazySeq T) (i : Int) (hi : i < 0) :
    getitem_int s i = .error .overflowErr := by
  rw [getitem_int, if_pos hi]

end LazySeq

namespace LazySeq

variable {T : Type}

theorem fullVal_at_size [Inhabited T] (s : LazySeq T) : fullVal s s.size = s.stream s.pos := by
  rw [fullVal, if_neg (by omega)]
  congr 1
  omega

theorem lastD_eq_fullVal (s : LazySeq Nat) (h : 0 < s.size) :
    s.lastD = fullVal s (s.size - 1) := by
  rw [lastD, List.getLastD_eq_getLast?, List.getLast?_eq_getElem?, fullVal, if_pos (by omega),
    List.getD_eq_getElem?_getD]
  rfl

theorem getD_eq_fullVal [Inhabited T] (s : LazySeq T) {i : Nat} (h : i < s.size) :
    s.cache.getD i default = fullVal s i := by
  rw [fullVal, if_pos h]

theorem getD_zero_eq_fullVal (s : LazySeq Nat) {i : Nat} (h : i < s.size) :
    s.cache.getD i 0 = fullVal s i := getD_eq_fullVal s h

/-- A successful `getMany` over nonnegative indices: the values are read
off the virtual sequence of the starting state, and the final state is
the fold of single-index forcing over the index list. -/
theorem getMany_spec [Inhabited T] :
    ∀ (l : List Nat) (s : LazySeq T),
      getMany s (l.map Int.ofNat) = .ok (l.map (fullVal s), l.foldl forceTo s) ∧
        Extends s (l.foldl forceTo s) := by
  intro l
  induction l with
  | nil => exact fun s => ⟨rfl, extends_refl s⟩
  | cons i is ih =>
    intro s
    obtain ⟨heq, hext⟩ := ih (forceTo s i)
    refine ⟨?_, extends_trans (forceTo_extends s i) hext⟩
    have hvals : List.map (fullVal (forceTo s i)) is = List.map (fullVal s) is := by
      rw [(forceTo_extends s i).fullVal_eq]
    rw [List.map_cons, List.map_cons, getMany, getitem_int_nat]
    simp only
    rw [heq, hvals, List.foldl_cons]

theorem getMany_extends [Inhabited T] :
    ∀ (l : List Int) (s : LazySeq T) (vs : List T) (s2 : LazySeq T),
      getMany s l = .ok (vs, s2) → Extends s s2 := by
  intro l
  induction l with
  | nil =>
    intro s vs s2 h
    rw [getMany] at h
    cases h
    exact extends_refl s
  | cons i is ih =>
    intro s vs s2 h
    rw [getMany] at h
    by_cases hi : i < 0
    · rw [getitem_int_neg s i hi] at h
      cases h
    · have hnat : i = Int.ofNat i.toNat := by
        rw [Int.ofNat_eq_coe, Int.toNat_of_nonneg (by omega)]
      rw [hnat, getitem_int_nat] at h
      simp only at h
      cases heq : getMany (forceTo s i.toNat) is with
      | error e => rw [heq] at h; cases h
      | ok p =>
        rw [heq] at h
        cases h
        exact extends_trans (forceTo_extends s i.toNat) (ih _ _ _ heq)

theorem getitem_slice_ok [Inhabited T] (s : LazySeq T) (a b : Option Int) :
    ∃ l s2, getitem_slice s a b = .ok (l, s2) ∧ Extends s s2 := by
  rw [getitem_slice]
  obtain ⟨heq, hext⟩ := getMany_spec (List.range' (normIdx INFINITE 0 a)
    (normIdx INFINITE INFINITE b - normIdx INFINITE 0 a) 1) s
  exact ⟨_, _, heq, hext⟩

end LazySeq

namespace LazySeq

/-- Invariant-based correctness of the CPython `bisect_left` loop. -/
theorem bisectLoop_spec (a : List Nat) (x : Nat) :
    ∀ fuel lo hi, hi - lo ≤ fuel → lo ≤ hi → hi ≤ a.length →
      (∀ j, j < lo → a.getD j 0 < x) →
      (∀ j, hi ≤ j → j < a.length → x ≤ a.getD j 0) →
      (∀ i j, i ≤ j → j < a.length → a.getD i 0 ≤ a.getD j 0) →
      (∀ j, j < bisectLoop a x fuel lo hi → a.getD j 0 < x) ∧
        (∀ j, bisectLoop a x fuel lo hi ≤ j → j < a.length → x ≤ a.getD j 0) ∧
        lo ≤ bisectLoop a x fuel lo hi ∧ bisectLoop a x fuel lo hi ≤ hi := by
  intro fuel
  induction fuel with
  | zero =>
    intro lo hi hfuel hlohi hhi hlo hhi2 hsort
    rw [bisectLoop]
    refine ⟨hlo, ?_, Nat.le_refl _, hlohi⟩
    intro j hj hjl
    exact hhi2 j (by omega) hjl
  | succ fuel ih =>
    intro lo hi hfuel hlohi hhi hlo hhi2 hsort
    rw [bisectLoop]
    by_cases hlt : lo < hi
    · rw [if_pos hlt]
      by_cases hmid : a.getD ((lo + hi) / 2) 0 < x
      · rw [if_pos hmid]
        have hlo2 : ∀ j, j < (lo + hi) / 2 + 1 → a.getD j 0 < x := by
          intro j hj
          exact Nat.lt_of_le_of_lt (hsort j ((lo + hi) / 2) (by omega) (by omega)) hmid
        obtain ⟨r1, r2, r3, r4⟩ := ih ((lo + hi) / 2 + 1) hi (by omega) (by omega) hhi
          hlo2 hhi2 hsort
        exact ⟨r1, r2, by omega, r4⟩
      · rw [if_neg hmid]
        have hhi3 : ∀ j, (lo + hi) / 2 ≤ j → j < a.length → x ≤ a.getD j 0 := by
          intro j hj hjl
          exact Nat.le_trans (Nat.le_of_not_lt hmid) (hsort ((lo + hi) / 2) j hj hjl)
        obtain ⟨r1, r2, r3, r4⟩ := ih lo ((lo + hi) / 2) (by omega) (by omega) (by omega)
          hlo hhi3 hsort
        exact ⟨r1, r2, r3, by omega⟩
    · rw [if_neg hlt]
      refine ⟨hlo, ?_, Nat.le_refl _, hlohi⟩
      intro j hj hjl
      exact hhi2 j (by omega) hjl

/-- `bisect_left` on a sorted list returns the leftmost position whose
element is `>= x`. -/
theorem bisect_left_spec (a : List Nat) (x : Nat)
    (hsort : ∀ i j, i ≤ j → j < a.length → a.getD i 0 ≤ a.getD j 0) :
    (∀ j, j < bisect_left a x → a.getD j 0 < x) ∧
      (∀ j, bisect_left a x ≤ j → j < a.length → x ≤ a.getD j 0) ∧
      bisect_left a x ≤ a.length := by
  have h := bisectLoop_spec a x a.length 0 a.length (by omega) (by omega) (Nat.le_refl _)
    (by omega) (by omega) hsort
  exact ⟨h.1, h.2.1, h.2.2.2⟩

/-- The forcing loop of `insertpos`, under a monotone virtual sequence
that reaches `x` within the fuel: it stops exactly at the first index
whose value is `>= x`. -/
theorem insertposLoop_spec (x : Nat) :
    ∀ (fuel : Nat) (s : LazySeq Nat),
      (∀ i j, i ≤ j → fullVal s i ≤ fullVal s j) →
      (∀ j, j < s.size → fullVal s j < x) →
      (∃ m, x ≤ fullVal s m ∧ m + 1 ≤ s.size + fuel) →
      Extends s (insertposLoop s x fuel) ∧ 0 < (insertposLoop s x fuel).size ∧
        (∀ j, j + 1 < (insertposLoop s x fuel).size → fullVal s j < x) ∧
        x ≤ fullVal s ((insertposLoop s x fuel).size - 1) := by
  intro fuel
  induction fuel with
  | zero =>
    intro s hmono hlt ⟨m, hm, hfuel⟩
    exact absurd hm (Nat.not_le.mpr (hlt m (by omega)))
  | succ fuel ih =>
    intro s hmono hlt ⟨m, hm, hfuel⟩
    rw [insertposLoop]
    have hval : (pullNext s).1 = fullVal s s.size := (fullVal_at_size s).symm
    by_cases hgt : x > (pullNext s).1
    · rw [if_pos hgt]
      have hext := pullNext_extends s
      have hfv := hext.fullVal_eq
      have hsz : (pullNext s).2.size = s.size + 1 := by
        simp [pullNext, size]
      have hm2 : x ≤ fullVal (pullNext s).2 m := by rw [hfv]; exact hm
      have hmono2 : ∀ i j, i ≤ j → fullVal (pullNext s).2 i ≤ fullVal (pullNext s).2 j := by
        intro i j hij
        rw [hfv]
        exact hmono i j hij
      have hlt2 : ∀ j, j < (pullNext s).2.size → fullVal (pullNext s).2 j < x := by
        intro j hj
        rw [hfv]
        rcases Nat.lt_or_ge j s.size with hc | hc
        · exact hlt j hc
        · have hje : j = s.size := by omega
          rw [hje, ← hval]
          omega
      have hmle : m + 1 ≤ (pullNext s).2.size + fuel := by
        rw [hsz]
        have : m ≥ s.size := by
          by_contra hcon
          exact absurd hm (Nat.not_le.mpr (hlt m (by omega)))
        omega
      obtain ⟨hext2, hpos, hlt3, hge⟩ := ih (pullNext s).2 hmono2 hlt2 ⟨m, hm2, hmle⟩
      refine ⟨extends_trans hext hext2, hpos, ?_, ?_⟩
      · intro j hj
        have := hlt3 j hj
        rw [hfv] at this
        exact this
      · have := hge
        rw [hfv] at this
        exact this
    · rw [if_neg hgt]
      have hext := pullNext_extends s
      have hsz : (pullNext s).2.size = s.size + 1 := by simp [pullNext, size]
      refine ⟨hext, by omega, ?_, ?_⟩
      · intro j hj
        exact hlt j (by omega)
      · rw [hsz, Nat.add_sub_cancel, ← hval]
        omega

/-- Main specification of `LazySortedSequence.insertpos` (claim C5's
content): for a state whose virtual sequence is non-decreasing and
reaches `x` at some index `m` within the fuel, `insertpos` returns the
leftmost index whose (possibly newly forced) value is `>= x`, and only
appends produced values to the cache. -/
theorem insertpos_spec (s : LazySeq Nat) (x fuel m : Nat)
    (hmono : ∀ i j, i ≤ j → fullVal s i ≤ fullVal s j)
    (hm : x ≤ fullVal s m) (hfuel : m + 1 ≤ s.size + fuel) :
    Extends s (insertpos s x fuel).2 ∧
      (insertpos s x fuel).1 < (insertpos s x fuel).2.size ∧
      (∀ j, j < (insertpos s x fuel).1 → fullVal s j < x) ∧
      x ≤ fullVal s (insertpos s x fuel).1 := by
  have hsl : s.size = s.cache.length := rfl
  have hsort : ∀ i j, i ≤ j → j < s.cache.length → s.cache.getD i 0 ≤ s.cache.getD j 0 := by
    intro i j hij hj
    rw [getD_zero_eq_fullVal s (show i < s.size by omega),
      getD_zero_eq_fullVal s (show j < s.size by omega)]
    exact hmono i j hij
  rw [insertpos]
  by_cases hcond : 0 < s.size ∧ x ≤ s.lastD
  · rw [if_pos hcond]
    obtain ⟨hpos, hlast⟩ := hcond
    obtain ⟨hlo, hhi, hle⟩ := bisect_left_spec s.cache x hsort
    have hgl : s.cache.getD (s.size - 1) 0 = s.lastD := by
      rw [lastD_eq_fullVal s hpos, getD_zero_eq_fullVal s (by omega)]
    have hltlen : bisect_left s.cache x < s.size := by
      rcases Nat.lt_or_ge (bisect_left s.cache x) s.size with hc | hc
      · exact hc
      · exfalso
        have hall := hlo (s.size - 1) (by omega)
        rw [hgl] at hall
        omega
    refine ⟨extends_refl s, hltlen, ?_, ?_⟩
    · intro j hj
      have hjs : j < s.size := Nat.lt_trans hj hltlen
      rw [← getD_zero_eq_fullVal s hjs]
      exact hlo j hj
    · rw [← getD_zero_eq_fullVal s hltlen]
      exact hhi _ (Nat.le_refl _) (by omega)
  · rw [if_neg hcond]
    simp only
    have halllt : ∀ j, j < s.size → fullVal s j < x := by
      intro j hj
      by_cases hpos : 0 < s.size
      · have hxlast : s.lastD < x := by
          rcases Nat.lt_or_ge s.lastD x with hc | hc
          · exact hc
          · exact absurd ⟨hpos, hc⟩ hcond
        rw [lastD_eq_fullVal s hpos] at hxlast
        exact Nat.lt_of_le_of_lt (hmono j (s.size - 1) (by omega)) hxlast
      · omega
    obtain ⟨hext, hszpos, hlt, hge⟩ := insertposLoop_spec x fuel s hmono halllt
      ⟨m, hm, hfuel⟩
    have hsz := hext.size_eq
    refine ⟨hext, by omega, ?_, hge⟩
    intro j hj
    exact hlt j (by omega)

end LazySeq

namespace LazySeq

theorem insertposLoop_extends (x : Nat) :
    ∀ (fuel : Nat) (s : LazySeq Nat), Extends s (insertposLoop s x fuel) := by
  intro fuel
  induction fuel with
  | zero => exact fun s => extends_refl s
  | succ fuel ih =>
    intro s
    rw [insertposLoop]
    by_cases h : x > (pullNext s).1
    · rw [if_pos h]
      exact extends_trans (pullNext_extends s) (ih (pullNext s).2)
    · rw [if_neg h]
      exact pullNext_extends s

theorem insertpos_extends (s : LazySeq Nat) (x fuel : Nat) :
    Extends s (insertpos s x fuel).2 := by
  rw [insertpos]
  by_cases h : 0 < s.size ∧ x ≤ s.lastD
  · rw [if_pos h]
    exact extends_refl s
  · rw [if_neg h]
    exact insertposLoop_extends x fuel s

theorem lss_index_snd (s : LazySeq Nat) (x : Nat) (cls : String) (fuel : Nat) :
    (lss_index s x cls fuel).2 = (insertpos s x fuel).2 := by
  rw [lss_index]
  split <;> rfl

/-- State used by the concrete witnesses: a `LazySequence` whose producer
yields 6, 7, 8, ... with a one-element cache. -/
def wseq : LazySeq Nat := ⟨[5], fun n => n + 6, 0⟩

/-- State used by the concrete witnesses of the sorted layer: an empty
cache over the producer of the even numbers. -/
def wesq : LazySeq Nat := ⟨[], fun n => 2 * n, 0⟩

theorem wesq_fullVal (i : Nat) : fullVal wesq i = 2 * i := by
  rw [fullVal, wesq]
  simp [size]

end LazySeq

namespace LazySeq

/-- Claim C4: for `i < size`, `at(i)` returns `cache[i]` and leaves the
state (hence the size) unchanged; for `size <= i` it consumes exactly
`i + 1 - size` values from the producer, making the size `i + 1`; a
second `at(i)` returns the same value and the same state. -/
theorem claim_C4_at {T : Type} [Inhabited T] (s : LazySeq T) (i : Nat) :
    (i < s.size → getitem_int s (Int.ofNat i) = .ok (s.cache.getD i default, s)) ∧
    (s.size ≤ i →
      getitem_int s (Int.ofNat i) = .ok (fullVal s i, produceTo s (i + 1 - s.size)) ∧
      (produceTo s (i + 1 - s.size)).pos = s.pos + (i + 1 - s.size) ∧
      (produceTo s (i + 1 - s.size)).size = i + 1) ∧
    (∀ v s2, getitem_int s (Int.ofNat i) = .ok (v, s2) →
      getitem_int s2 (Int.ofNat i) = .ok (v, s2)) := by
  have hchar := getitem_int_nat s i
  refine ⟨?_, ?_, ?_⟩
  · intro hi
    rw [hchar, forceTo, if_neg (by omega), getD_eq_fullVal s hi]
  · intro hi
    have harg : i - s.size + 1 = i + 1 - s.size := by omega
    have hft : forceTo s i = produceTo s (i + 1 - s.size) := by
      rw [forceTo, if_pos hi, harg]
    refine ⟨by rw [hchar, hft], by rw [produceTo_pos], by rw [produceTo_size]; omega⟩
  · intro v s2 h
    rw [hchar] at h
    injection h with h
    injection h with hv hs
    subst hv hs
    have hext := forceTo_extends s i
    have hszf : (forceTo s i).size = max s.size (i + 1) := forceTo_size s i
    rw [getitem_int_nat, hext.fullVal_eq, forceTo, if_neg (by omega)]

/-- Claim C4, witnessed at a concrete state and index past the cache. -/
theorem claim_C4_witness :
    getitem_int wseq (Int.ofNat 2) =
      .ok (fullVal wseq 2, produceTo wseq (2 + 1 - wseq.size)) ∧
      (produceTo wseq (2 + 1 - wseq.size)).size = 2 + 1 := by
  have h := (claim_C4_at wseq 2).2.1 (by decide)
  exact ⟨h.1, h.2.2⟩

/-- Claim C5: `insertpos` returns the leftmost index whose (possibly newly
forced) value is `>= x`, for a non-decreasing producer that reaches `x`
(at index `m`) within the fuel; it mutates the state only by appending
produced values. -/
theorem claim_C5_insertionPoint (s : LazySeq Nat) (x fuel m : Nat)
    (hmono : ∀ i j, i ≤ j → fullVal s i ≤ fullVal s j)
    (hm : x ≤ fullVal s m) (hfuel : m + 1 ≤ s.size + fuel) :
    Extends s (insertpos s x fuel).2 ∧
      (insertpos s x fuel).1 < (insertpos s x fuel).2.size ∧
      (∀ j, j < (insertpos s x fuel).1 → fullVal s j < x) ∧
      x ≤ fullVal s (insertpos s x fuel).1 :=
  insertpos_spec s x fuel m hmono hm hfuel

/-- Claim C5, witnessed on the even-number sequence at `x = 3`. -/
theorem claim_C5_witness :
    3 ≤ fullVal wesq (insertpos wesq 3 3).1 ∧
      (insertpos wesq 3 3).1 < (insertpos wesq 3 3).2.size := by
  have h := claim_C5_insertionPoint wesq 3 3 2
    (by
      intro i j hij
      rw [wesq_fullVal, wesq_fullVal]
      omega)
    (by rw [wesq_fullVal]; omega) (by decide)
  exact ⟨h.2.2.2, h.2.1⟩

/-- Specification of `LazySortedSequence.index`: the content of claim C6,
as a reusable lemma. -/
theorem lss_index_spec (s : LazySeq Nat) (x fuel m : Nat) (cls : String)
    (hmono : ∀ i j, i ≤ j → fullVal s i ≤ fullVal s j)
    (hm : x ≤ fullVal s m) (hfuel : m + 1 ≤ s.size + fuel) :
    ((∃ j0, fullVal s j0 = x) →
      lss_index s x cls fuel = (.ok (insertpos s x fuel).1, (insertpos s x fuel).2) ∧
      fullVal s (insertpos s x fuel).1 = x ∧
      (insertpos s x fuel).2.cache.getD (insertpos s x fuel).1 0 = x ∧
      (∀ j, j < (insertpos s x fuel).1 → fullVal s j < x) ∧
      Extends s (insertpos s x fuel).2) ∧
    ((∀ j0, fullVal s j0 ≠ x) →
      lss_index s x cls fuel = (.error (.valueErr x cls), (insertpos s x fuel).2) ∧
      Extends s (insertpos s x fuel).2) := by
  obtain ⟨hext, hlt, hleft, hge⟩ := insertpos_spec s x fuel m hmono hm hfuel
  have hcv : (insertpos s x fuel).2.cache.getD (insertpos s x fuel).1 0 =
      fullVal s (insertpos s x fuel).1 := by
    rw [getD_zero_eq_fullVal _ hlt, hext.fullVal_eq]
  constructor
  · rintro ⟨j0, hj0⟩
    have heq : fullVal s (insertpos s x fuel).1 = x := by
      rcases Nat.lt_or_ge j0 (insertpos s x fuel).1 with hc | hc
      · exact absurd hj0 (Nat.ne_of_lt (hleft j0 hc))
      · have h1 := hmono (insertpos s x fuel).1 j0 hc
        rw [hj0] at h1
        omega
    refine ⟨?_, heq, by rw [hcv, heq], hleft, hext⟩
    rw [lss_index]
    rw [if_pos ?_]
    rw [hcv, heq]
    exact beq_self_eq_true x
  · intro hno
    have hne : fullVal s (insertpos s x fuel).1 ≠ x := hno _
    refine ⟨?_, hext⟩
    rw [lss_index, if_neg ?_]
    rw [hcv]
    simp only [beq_iff_eq]
    exact fun h => hne h.symm

/-- Claim C6: `index(x)` returns the (leftmost) index holding `x` when `x`
occurs in the sequence, and otherwise raises `ValueError` carrying the
queried value and the class name (the spec's `NotFoundError`). -/
theorem claim_C6_find (s : LazySeq Nat) (x fuel m : Nat) (cls : String)
    (hmono : ∀ i j, i ≤ j → fullVal s i ≤ fullVal s j)
    (hm : x ≤ fullVal s m) (hfuel : m + 1 ≤ s.size + fuel) :
    ((∃ j0, fullVal s j0 = x) →
      lss_index s x cls fuel = (.ok (insertpos s x fuel).1, (insertpos s x fuel).2) ∧
      fullVal s (insertpos s x fuel).1 = x ∧
      (insertpos s x fuel).2.cache.getD (insertpos s x fuel).1 0 = x ∧
      (∀ j, j < (insertpos s x fuel).1 → fullVal s j < x) ∧
      Extends s (insertpos s x fuel).2) ∧
    ((∀ j0, fullVal s j0 ≠ x) →
      lss_index s x cls fuel = (.error (.valueErr x cls), (insertpos s x fuel).2) ∧
      Extends s (insertpos s x fuel).2) :=
  lss_index_spec s x fuel m cls hmono hm hfuel

/-- Claim C6, witnessed on the even-number sequence: `index(4)` finds 4,
`index(3)` raises the carrying error. -/
theorem claim_C6_witness :
    lss_index wesq 4 "LazySortedSequence" 5 =
      (.ok (insertpos wesq 4 5).1, (insertpos wesq 4 5).2) ∧
    lss_index wesq 3 "LazySortedSequence" 5 =
      (.error (.valueErr 3 "LazySortedSequence"), (insertpos wesq 3 5).2) := by
  have hmono : ∀ i j, i ≤ j → fullVal wesq i ≤ fullVal wesq j := by
    intro i j hij
    rw [wesq_fullVal, wesq_fullVal]
    omega
  have h4 := (claim_C6_find wesq 4 5 2 "LazySortedSequence" hmono
    (by rw [wesq_fullVal]) (by decide)).1 ⟨2, by rw [wesq_fullVal]⟩
  have h3 := (claim_C6_find wesq 3 5 2 "LazySortedSequence" hmono
    (by rw [wesq_fullVal]; omega) (by decide)).2
    (by
      intro j0
      rw [wesq_fullVal]
      omega)
  exact ⟨h4.1, h3.1⟩

end LazySeq

namespace LazySeq

theorem normIdx_ofNat (len : Nat) (dflt : Nat) (a : Nat) (ha : a ≤ len) :
    normIdx len dflt (some (Int.ofNat a)) = a := by
  rw [normIdx, if_neg (by exact Int.not_lt.mpr (Int.ofNat_nonneg a))]
  have h1 : (Int.ofNat a).toNat = a := rfl
  rw [h1]
  omega

/-- Claim C8 (amended claim C7's slice half relies on this too): a step-1
slice `[a:b]` with valid `a <= b <= sys.maxsize` returns exactly the list
of the `at(i)` values for `i` in `[a, b)`, through the same forcing path
(`at` calls folded over the index range), and only appends to the cache. -/
theorem claim_C8_slice {T : Type} [Inhabited T] (s : LazySeq T) (a b : Nat)
    (hab : a ≤ b) (hb : b ≤ INFINITE) :
    (getitem_slice s (some (Int.ofNat a)) (some (Int.ofNat b)) =
      .ok ((List.range' a (b - a) 1).map (fullVal s),
        (List.range' a (b - a) 1).foldl forceTo s) ∧
      Extends s ((List.range' a (b - a) 1).foldl forceTo s)) ∧
    (∀ j : Nat, getitem_int s (Int.ofNat j) = .ok (fullVal s j, forceTo s j)) := by
  constructor
  · rw [getitem_slice, normIdx_ofNat INFINITE 0 a (hab.trans hb), normIdx_ofNat INFINITE INFINITE b hb]
    exact getMany_spec (List.range' a (b - a) 1) s
  · exact fun j => getitem_int_nat s j

/-- Claim C8, witnessed at a concrete state and bounds. -/
theorem claim_C8_witness :
    getitem_slice wseq (some (Int.ofNat 0)) (some (Int.ofNat 3)) =
      .ok ((List.range' 0 3 1).map (fullVal wseq), (List.range' 0 3 1).foldl forceTo wseq) := by
  exact ((claim_C8_slice wseq 0 3 (by decide) (by decide)).1).1

/-- Claim C7 could not be confirmed as stated: a negative integer index
makes `__getitem_int__` raise `OverflowError`, not `IndexError`, and a
step-1 slice with negative components raises nothing at all (its
components are normalised against `sys.maxsize`).  This theorem proves
the amended claim. -/
theorem claim_C7_amended {T : Type} [Inhabited T] (s : LazySeq T) (i : Int) (hi : i < 0) :
    getitem_int s i = .error .overflowErr ∧
    (∀ a b : Int, ∃ l s2, getitem_slice s (some a) (some b) = .ok (l, s2)) := by
  refine ⟨getitem_int_neg s i hi, ?_⟩
  intro a b
  obtain ⟨l, s2, heq, _⟩ := getitem_slice_ok s (some a) (some b)
  exact ⟨l, s2, heq⟩

/-- Claim C7, refuted at a concrete input: the error raised for index -1
is `OverflowError` (not `IndexError`), and the slice `[-3:-1]` does not
fail (it normalises against `sys.maxsize` and succeeds). -/
theorem claim_C7_counterexample :
    getitem_int wseq (-1) = .error .overflowErr ∧
    PyErr.overflowErr ≠ PyErr.indexErr ∧
    (∃ l s2, getitem_slice wseq (some (-3)) (some (-1)) = .ok (l, s2)) := by
  refine ⟨getitem_int_neg wseq (-1) (by decide), by decide, ?_⟩
  obtain ⟨l, s2, heq, _⟩ := getitem_slice_ok wseq (some (-3)) (some (-1))
  exact ⟨l, s2, heq⟩

/-- Claim C7 (amended), witnessed at index -2 of a concrete state. -/
theorem claim_C7_witness :
    getitem_int wseq (-2) = .error .overflowErr :=
  (claim_C7_amended wseq (-2) (by decide)).1

/-- Claim C9: across all operations, the cache only grows by appending
the values the producer yields, in order (`Extends`); consequently the
size is non-decreasing, cached entries are never removed or reordered,
entry `i` equals the `i`-th produced value (up to the pre-seed offset:
`Faithful` states keep `cache[i] =` the `i`-th value ever produced). -/
theorem claim_C9_cache_invariant (s : LazySeq Nat) :
    Extends s (pullNext s).2 ∧
    (∀ idx : Int, ∀ v s2, getitem_int s idx = .ok (v, s2) → Extends s s2) ∧
    (∀ a b l s2, getitem_slice s a b = .ok (l, s2) → Extends s s2) ∧
    (∀ x fuel, Extends s (insertpos s x fuel).2) ∧
    (∀ x fuel, Extends s (lss_contains s x fuel).2) ∧
    (∀ x cls fuel, Extends s (lss_index s x cls fuel).2) ∧
    (∀ s2 : LazySeq Nat, Extends s s2 →
      s.size ≤ s2.size ∧
      (∀ i, i < s.size → s2.cache.getD i 0 = s.cache.getD i 0) ∧
      (∀ i, s.size ≤ i → i < s2.size → s2.cache.getD i 0 = s.stream (s.pos + (i - s.size))) ∧
      (Faithful s → Faithful s2)) := by
  refine ⟨pullNext_extends s, ?_, ?_, fun x fuel => insertpos_extends s x fuel, ?_, ?_, ?_⟩
  · intro idx v s2 h
    by_cases hneg : idx < 0
    · rw [getitem_int_neg s idx hneg] at h
      cases h
    · have hnat : idx = Int.ofNat idx.toNat := by
        rw [Int.ofNat_eq_coe, Int.toNat_of_nonneg (by omega)]
      rw [hnat, getitem_int_nat] at h
      injection h with h
      injection h with hv hs
      subst hs
      exact forceTo_extends s idx.toNat
  · intro a b l s2 h
    rw [getitem_slice] at h
    exact getMany_extends _ s l s2 h
  · intro x fuel
    exact insertpos_extends s x fuel
  · intro x cls fuel
    rw [lss_index_snd]
    exact insertpos_extends s x fuel
  · intro s2 hext
    refine ⟨by rw [hext.size_eq]; omega, fun i hi => hext.getD_lt hi 0,
      fun i hi hi2 => hext.getD_produced hi hi2 0, hext.faithful⟩

/-- Claim C9, witnessed: one forced pull from a concrete state appends
exactly the produced value. -/
theorem claim_C9_witness : Extends wseq (pullNext wseq).2 :=
  (claim_C9_cache_invariant wseq).1

end LazySeq

/-! Embedding of primes.py: the `Primes` class, its self-referential
segmented trial-division sieve `__genprimes`, and its `__contains__`. -/

namespace Primes

open LazySeq

/-- The `for p in ...: if n % p == 0: break` / `else: yield n` pattern of
`__genprimes`: true when no listed divisor divides `n`. -/
def noDiv (n : Nat) : List Nat → Bool
  | [] => true
  | p :: ps => if n % p == 0 then false else noDiv n ps

/-- The inner `for n in range(start, stop, 2)` loop of one sieve segment,
as a tail recursion on the number `c` of remaining candidates, with an
accumulator for the values yielded so far. -/
def segLoop (divs : List Nat) : Nat → Nat → List Nat → List Nat
  | _, 0, acc => acc.reverse
  | start, c+1, acc =>
    if noDiv start divs then segLoop divs (start + 2) c (start :: acc)
    else segLoop divs (start + 2) c acc

/-- One iteration of the outer `while True` loop of `__genprimes`, acting
on (cache, start, top).  `stop = _primes[top] ** 2`; the divisors are
`islice(_primes, 1, top)`, i.e. positions 1 to top-1 of the cache, which
stay fixed during the segment (the loop only appends); the candidate
count of `range(start, stop, 2)` is `(stop - start + 1) / 2`. -/
def sieveStep : List Nat × Nat × Nat → List Nat × Nat × Nat
  | (cache, start, top) =>
    let stop := (cache.getD top 0) ^ 2
    let divs := (cache.drop 1).take (top - 1)
    let news := segLoop divs start ((stop - start + 1) / 2) []
    (cache ++ news, stop + 2, top + 1)

/-- The sieve state after `t` segments, from the seeded cache `[2, 3]`,
`start = 5`, `top = 1`. -/
def sieveState : Nat → List Nat × Nat × Nat
  | 0 => ([2, 3], 5, 1)
  | t+1 => sieveStep (sieveState t)

/-- The cache of the shared `primes` object after `t` segments. -/
def sieveList (t : Nat) : List Nat := (sieveState t).1

/-- The `j`-th value `__genprimes` yields (5, 7, 11, ...): entry `j + 2`
of the sieve cache, read once enough segments have run (after `j + 1`
segments the cache has more than `j + 2` entries). -/
def genprimesStream (j : Nat) : Nat := (sieveList (j + 1)).getD (j + 2) 0

/-- The `primes = Primes()` module object: cache seeded with `[2, 3]`,
producer `__genprimes` (which yields from 5 on). -/
def primesInit : LazySeq Nat := ⟨[2, 3], genprimesStream, 0⟩

/-- `range(a, b, 2)` as a list. -/
def pyRange2 (a b : Nat) : List Nat := (List.range ((b - a + 1) / 2)).map (fun j => a + 2 * j)

/-- The tail of `Primes.__contains__` once `top` has been computed (the
pair `tp` is `(top, state after computing top)`): trial division by the
cached primes `islice(_primes, 1, top)`, then the "one-shot" check over
`range(last + 2, root + 1, 2)`. -/
def pcHard (n root : Nat) (tp : Nat × LazySeq Nat) : Bool × LazySeq Nat :=
  if ((tp.2.cache.drop 1).take (tp.1 - 1)).any (fun p => n % p == 0) then (false, tp.2)
  else if (pyRange2 (tp.2.lastD + 2) (root + 1)).any (fun i => n % i == 0) then (false, tp.2)
  else (true, tp.2)

/-- `Primes.__contains__` (`isprime`).  Mirrors the source: delegate to
the sorted-membership check when `n <= self.last`; otherwise compute
`root = isqrt(n)` and `top = size if root > last else insertpos(root)`
and hand over to the trial-division tail. -/
def primes_contains (s : LazySeq Nat) (n : Nat) (fuel : Nat) : Bool × LazySeq Nat :=
  if n ≤ s.lastD then lss_contains s n fuel
  else
    pcHard n (Nat.sqrt n)
      (if Nat.sqrt n > s.lastD then (s.size, s) else insertpos s (Nat.sqrt n) fuel)

end Primes

namespace Primes

/-- The primes below `B`, in increasing order (specification side). -/
def primesBelow (B : Nat) : List Nat := (List.range B).filter (fun n => decide (Nat.Prime n))

theorem primesBelow_succ (B : Nat) :
    primesBelow (B + 1) = primesBelow B ++ if Nat.Prime B then [B] else [] := by
  rw [primesBelow, primesBelow, List.range_succ, List.filter_append]
  congr 1
  by_cases h : Nat.Prime B <;> simp [h]

theorem primesBelow_length (B : Nat) : (primesBelow B).length = Nat.count Nat.Prime B := by
  rw [primesBelow, Nat.count, List.countP_eq_length_filter]

theorem mem_primesBelow {x B : Nat} : x ∈ primesBelow B ↔ x < B ∧ x.Prime := by
  rw [primesBelow, List.mem_filter, List.mem_range]
  simp

theorem primesBelow_sorted (B : Nat) : (primesBelow B).Pairwise (· < ·) := by
  rw [primesBelow]
  exact (List.pairwise_lt_range B).filter _

theorem primesBelow_get? (B : Nat) :
    ∀ i, i < Nat.count Nat.Prime B → (primesBelow B).get? i = some (Nat.nth Nat.Prime i) := by
  induction B with
  | zero =>
    intro i hi
    simp [Nat.count] at hi
  | succ B ih =>
    intro i hi
    rw [primesBelow_succ]
    rcases Nat.lt_or_ge i (Nat.count Nat.Prime B) with hc | hc
    · rw [List.get?_eq_getElem?, List.getElem?_append_left (by rw [primesBelow_length]; exact hc), ← List.get?_eq_getElem?]
      exact ih i hc
    · rw [Nat.count_succ] at hi
      by_cases hp : Nat.Prime B
      · rw [if_pos hp] at hi ⊢
        have hieq : i = Nat.count Nat.Prime B := by omega
        subst hieq
        rw [List.get?_eq_getElem?, List.getElem?_append_right (by rw [primesBelow_length])]
        rw [primesBelow_length, Nat.sub_self]
        rw [Nat.nth_count hp]
        rfl
      · rw [if_neg hp] at hi
        omega

theorem primesBelow_getD (B : Nat) {i : Nat} (hi : i < Nat.count Nat.Prime B) :
    (primesBelow B).getD i 0 = Nat.nth Nat.Prime i := by
  rw [List.getD_eq_getElem?_getD, ← List.get?_eq_getElem?, primesBelow_get? B i hi]
  rfl

/-- Basic facts about the infinitude of primes, specialised. -/
theorem nth_prime_lt_iff_lt_count {i B : Nat} :
    Nat.nth Nat.Prime i < B ↔ i < Nat.count Nat.Prime B := by
  constructor
  · intro h
    have h1 : Nat.count Nat.Prime (Nat.nth Nat.Prime i) = i :=
      Nat.count_nth (fun hf => absurd hf Nat.infinite_setOf_prime)
    have h2 := Nat.count_succ Nat.Prime (Nat.nth Nat.Prime i)
    rw [if_pos (Nat.nth_mem_of_infinite Nat.infinite_setOf_prime i)] at h2
    have h3 := Nat.count_monotone Nat.Prime (show Nat.nth Nat.Prime i + 1 ≤ B by omega)
    omega
  · intro h
    by_contra hc
    have h3 := Nat.count_monotone Nat.Prime (show B ≤ Nat.nth Nat.Prime i by omega)
    have h1 : Nat.count Nat.Prime (Nat.nth Nat.Prime i) = i :=
      Nat.count_nth (fun hf => absurd hf Nat.infinite_setOf_prime)
    omega

/-- Two strictly sorted lists with the same members are equal. -/
theorem sorted_lt_eq_of_mem_iff :
    ∀ (l l2 : List Nat), l.Pairwise (· < ·) → l2.Pairwise (· < ·) →
      (∀ x, x ∈ l ↔ x ∈ l2) → l = l2 := by
  intro l
  induction l with
  | nil =>
    intro l2 _ _ hmem
    cases l2 with
    | nil => rfl
    | cons b l2 => exact absurd ((hmem b).mpr (List.mem_cons_self b l2)) (List.not_mem_nil b)
  | cons a l ih =>
    intro l2 hs hs2 hmem
    cases l2 with
    | nil => exact absurd ((hmem a).mp (List.mem_cons_self a l)) (List.not_mem_nil a)
    | cons b l2 =>
      have hab : a = b := by
        rcases List.mem_cons.mp ((hmem a).mp (List.mem_cons_self a l)) with h | h
        · exact h
        · rcases List.mem_cons.mp ((hmem b).mpr (List.mem_cons_self b l2)) with h2 | h2
          · exact h2.symm
          · have h3 := List.rel_of_pairwise_cons hs2 h
            have h4 := List.rel_of_pairwise_cons hs h2
            omega
      subst hab
      congr 1
      apply ih l2 hs.of_cons hs2.of_cons
      intro x
      constructor
      · intro hx
        have hax : a < x := List.rel_of_pairwise_cons hs hx
        rcases List.mem_cons.mp ((hmem x).mp (List.mem_cons_of_mem a hx)) with h | h
        · omega
        · exact h
      · intro hx
        have hax : a < x := List.rel_of_pairwise_cons hs2 hx
        rcases List.mem_cons.mp ((hmem x).mpr (List.mem_cons_of_mem a hx)) with h | h
        · omega
        · exact h

end Primes

namespace Primes

/-- `range(start, stop, 2)` with `c` elements, in closed form. -/
def candList (start c : Nat) : List Nat := (List.range c).map (fun j => start + 2 * j)

theorem candList_succ (start c : Nat) :
    candList start (c + 1) = start :: candList (start + 2) c := by
  rw [candList, candList, List.range_succ_eq_map, List.map_cons, List.map_map]
  refine congrArg₂ _ (by norm_num) ?_
  apply List.map_congr_left
  intro j _
  simp only [Function.comp_apply, Nat.succ_eq_add_one]
  omega

theorem mem_candList {n start c : Nat} :
    n ∈ candList start c ↔ ∃ j, j < c ∧ n = start + 2 * j := by
  rw [candList, List.mem_map]
  constructor
  · rintro ⟨j, hj, rfl⟩
    exact ⟨j, List.mem_range.mp hj, rfl⟩
  · rintro ⟨j, hj, rfl⟩
    exact ⟨j, List.mem_range.mpr hj, rfl⟩

theorem candList_sorted (start c : Nat) : (candList start c).Pairwise (· < ·) := by
  rw [candList]
  exact (List.pairwise_lt_range c).map _ (fun a b hab => by omega)

theorem segLoop_eq (divs : List Nat) :
    ∀ c start acc, segLoop divs start c acc =
      acc.reverse ++ (candList start c).filter (fun n => noDiv n divs) := by
  intro c
  induction c with
  | zero =>
    intro start acc
    rw [segLoop, candList]
    simp
  | succ c ih =>
    intro start acc
    rw [segLoop, candList_succ, List.filter_cons]
    by_cases h : noDiv start divs
    · rw [if_pos h, if_pos (by rw [h]), ih]
      simp
    · rw [if_neg h, if_neg (by simp [h]), ih]

theorem noDiv_iff (n : Nat) : ∀ l : List Nat, noDiv n l = true ↔ ∀ p ∈ l, n % p ≠ 0 := by
  intro l
  induction l with
  | nil => simp [noDiv]
  | cons p ps ih =>
    rw [noDiv]
    by_cases h : n % p == 0
    · rw [if_pos h]
      simp only [beq_iff_eq] at h
      constructor
      · intro hfalse
        cases hfalse
      · intro hall
        exact absurd h (hall p (List.mem_cons_self p ps))
    · rw [if_neg h, ih]
      simp only [beq_iff_eq] at h
      constructor
      · intro hall q hq
        rcases List.mem_cons.mp hq with rfl | hq2
        · exact h
        · exact hall q hq2
      · intro hall q hq
        exact hall q (List.mem_cons_of_mem p hq)

/-- Correctness of trial division against a divisor list that contains
every odd prime below `q`, for an odd candidate `n < q^2`. -/
theorem trial_prime (n q : Nat) (hodd : n % 2 = 1) (h1 : 1 < n) (hnq : n < q ^ 2)
    (divs : List Nat)
    (hmem : ∀ p, Nat.Prime p → p ≠ 2 → p < q → p ∈ divs)
    (hall : ∀ p ∈ divs, Nat.Prime p ∧ p < n) :
    (noDiv n divs = true ↔ n.Prime) := by
  rw [noDiv_iff]
  constructor
  · intro h
    by_contra hnp
    have hminp : (Nat.minFac n).Prime := Nat.minFac_prime (by omega)
    have hdvd : Nat.minFac n ∣ n := Nat.minFac_dvd n
    have hsq : Nat.minFac n ^ 2 ≤ n := Nat.minFac_sq_le_self (by omega) hnp
    have hlt : Nat.minFac n < q := by
      by_contra hge
      have := Nat.pow_le_pow_left (Nat.le_of_not_lt hge) 2
      omega
    have hne2 : Nat.minFac n ≠ 2 := by
      intro h2
      rw [h2] at hdvd
      omega
    exact h _ (hmem _ hminp hne2 hlt) (Nat.dvd_iff_mod_eq_zero.mp hdvd)
  · intro hp p hpdivs hmod
    obtain ⟨hpp, hplt⟩ := hall p hpdivs
    have hdvd : p ∣ n := Nat.dvd_iff_mod_eq_zero.mpr hmod
    rcases hp.eq_one_or_self_of_dvd p hdvd with h | h
    · exact hpp.one_lt.ne' h
    · omega

end Primes

namespace Primes

theorem sieveStep_eq (cache : List Nat) (start top : Nat) :
    sieveStep (cache, start, top) =
      (cache ++ segLoop ((cache.drop 1).take (top - 1)) start
          (((cache.getD top 0) ^ 2 - start + 1) / 2) [],
        (cache.getD top 0) ^ 2 + 2, top + 1) := rfl

theorem nth_prime_prime (i : Nat) : (Nat.nth Nat.Prime i).Prime :=
  Nat.nth_mem_of_infinite Nat.infinite_setOf_prime i

theorem nth_prime_lt_nth_prime {i j : Nat} :
    Nat.nth Nat.Prime i < Nat.nth Nat.Prime j ↔ i < j :=
  Nat.nth_lt_nth Nat.infinite_setOf_prime

theorem nth_prime_zero : Nat.nth Nat.Prime 0 = 2 := by
  have h := Nat.nth_count (p := Nat.Prime) (n := 2) (by norm_num)
  have hc : Nat.count Nat.Prime 2 = 0 := by decide
  rw [hc] at h
  exact h

theorem nth_prime_one : Nat.nth Nat.Prime 1 = 3 := by
  have h := Nat.nth_count (p := Nat.Prime) (n := 3) (by norm_num)
  have hc : Nat.count Nat.Prime 3 = 1 := by decide
  rw [hc] at h
  exact h

theorem nth_prime_ge_three {i : Nat} (hi : 1 ≤ i) :
    3 ≤ Nat.nth Nat.Prime i ∧ Nat.nth Nat.Prime i % 2 = 1 := by
  have h3 : 3 ≤ Nat.nth Nat.Prime i := by
    rcases Nat.eq_or_lt_of_le hi with h | h
    · rw [← h, nth_prime_one]
    · have h2 := nth_prime_lt_nth_prime.mpr h
      rw [nth_prime_one] at h2
      omega
  refine ⟨h3, ?_⟩
  have hp := nth_prime_prime i
  have hodd : Odd (Nat.nth Nat.Prime i) := hp.odd_of_ne_two (by omega)
  exact Nat.odd_iff.mp hodd

theorem nth_succ_le_of_prime_gt {k r : Nat} (hr : r.Prime)
    (hgt : Nat.nth Nat.Prime k < r) : Nat.nth Nat.Prime (k + 1) ≤ r := by
  by_contra hc
  have hr2 : Nat.nth Nat.Prime (Nat.count Nat.Prime r) = r := Nat.nth_count hr
  have h1 : k < Nat.count Nat.Prime r := by
    rw [← hr2] at hgt
    exact nth_prime_lt_nth_prime.mp hgt
  have h2 : Nat.count Nat.Prime r < k + 1 := by
    rw [← hr2] at hc
    exact nth_prime_lt_nth_prime.mp (Nat.lt_of_not_le hc)
  omega

theorem divs_length {B t : Nat} (hcnt : t + 2 ≤ Nat.count Nat.Prime B) :
    (((primesBelow B).drop 1).take t).length = t := by
  rw [List.length_take, List.length_drop, primesBelow_length]
  omega

theorem divs_get? {B t : Nat} (hcnt : t + 2 ≤ Nat.count Nat.Prime B) (j : Nat) (hj : j < t) :
    (((primesBelow B).drop 1).take t).get? j = some (Nat.nth Nat.Prime (j + 1)) := by
  rw [List.get?_eq_getElem?, List.getElem?_take, if_pos hj, List.getElem?_drop,
    ← List.get?_eq_getElem?]
  have h1j : 1 + j = j + 1 := by omega
  rw [h1j]
  exact primesBelow_get? B (j + 1) (by omega)

theorem mem_divs {B t p : Nat} (hcnt : t + 2 ≤ Nat.count Nat.Prime B) :
    p ∈ ((primesBelow B).drop 1).take t ↔ ∃ j, j < t ∧ p = Nat.nth Nat.Prime (j + 1) := by
  rw [List.mem_iff_get?]
  constructor
  · rintro ⟨j, hj⟩
    have hjlen : j < t := by
      by_contra hc
      rw [List.get?_eq_getElem?, List.getElem?_eq_none (by rw [divs_length hcnt]; omega)] at hj
      cases hj
    rw [divs_get? hcnt j hjlen] at hj
    exact ⟨j, hjlen, (Option.some.inj hj).symm⟩
  · rintro ⟨j, hj, rfl⟩
    exact ⟨j, divs_get? hcnt j hj⟩

/-- The central invariant of `__genprimes`: after `t` segments the cache
is exactly the list of all primes below the segment boundary `B` (an odd
number at least 5 with more than `t + 1` primes below it), `start = B`,
and `top = t + 1`. -/
theorem sieve_inv : ∀ t, ∃ B,
    5 ≤ B ∧ B % 2 = 1 ∧ t + 2 ≤ Nat.count Nat.Prime B ∧
    B ≤ (Nat.nth Nat.Prime (t + 1)) ^ 2 ∧
    sieveState t = (primesBelow B, B, t + 1) := by
  intro t
  induction t with
  | zero =>
    refine ⟨5, by omega, by omega, by decide, ?_, ?_⟩
    · norm_num [nth_prime_one]
    · have h5 : primesBelow 5 = [2, 3] := by decide
      rw [sieveState, h5]
  | succ t ih =>
    obtain ⟨B, hB5, hBodd, hcnt, hBle, hstate⟩ := ih
    have hqp : (Nat.nth Nat.Prime (t + 1)).Prime := nth_prime_prime (t + 1)
    have hq3 : 3 ≤ Nat.nth Nat.Prime (t + 1) := (nth_prime_ge_three (by omega)).1
    have hqodd : Nat.nth Nat.Prime (t + 1) % 2 = 1 := (nth_prime_ge_three (by omega)).2
    have hqB : Nat.nth Nat.Prime (t + 1) < B := nth_prime_lt_iff_lt_count.mpr (by omega)
    have hgetq : (primesBelow B).getD (t + 1) 0 = Nat.nth Nat.Prime (t + 1) :=
      primesBelow_getD B (by omega)
    have h9 : 9 ≤ (Nat.nth Nat.Prime (t + 1)) ^ 2 := by
      have h := Nat.pow_le_pow_left hq3 2
      norm_num at h
      exact h
    have hq2odd : (Nat.nth Nat.Prime (t + 1)) ^ 2 % 2 = 1 :=
      Nat.odd_iff.mp ((Nat.odd_iff.mpr hqodd).pow)
    have hqq : (Nat.nth Nat.Prime (t + 1)) ^ 2 = Nat.nth Nat.Prime (t + 1) * Nat.nth Nat.Prime (t + 1) :=
      pow_two _
    have hc2 : B + 2 * (((Nat.nth Nat.Prime (t + 1)) ^ 2 - B + 1) / 2) =
        (Nat.nth Nat.Prime (t + 1)) ^ 2 := by
      omega
    have hmem_inst : ∀ p, Nat.Prime p → p ≠ 2 → p < Nat.nth Nat.Prime (t + 1) →
        p ∈ ((primesBelow B).drop 1).take t := by
      intro p hp hp2 hpq
      rw [mem_divs hcnt]
      have hp3 : 3 ≤ p := by
        have := hp.two_le
        omega
      have hidx : Nat.nth Nat.Prime (Nat.count Nat.Prime p) = p := Nat.nth_count hp
      have hpos : 1 ≤ Nat.count Nat.Prime p := by
        have h0 : Nat.nth Nat.Prime 0 < p := by
          rw [nth_prime_zero]
          omega
        exact nth_prime_lt_iff_lt_count.mp h0
      have hub : Nat.count Nat.Prime p < t + 1 := by
        apply nth_prime_lt_nth_prime.mp
        rw [hidx]
        exact hpq
      refine ⟨Nat.count Nat.Prime p - 1, by omega, ?_⟩
      rw [Nat.sub_add_cancel hpos, hidx]
    have hall_inst : ∀ n, B ≤ n → ∀ p ∈ ((primesBelow B).drop 1).take t,
        Nat.Prime p ∧ p < n := by
      intro n hn p hp
      rw [mem_divs hcnt] at hp
      obtain ⟨j, hj, rfl⟩ := hp
      refine ⟨nth_prime_prime _, ?_⟩
      have h1 : Nat.nth Nat.Prime (j + 1) < Nat.nth Nat.Prime (t + 1) :=
        nth_prime_lt_nth_prime.mpr (by omega)
      omega
    have hmemnews : ∀ x,
        x ∈ (candList B (((Nat.nth Nat.Prime (t + 1)) ^ 2 - B + 1) / 2)).filter
          (fun n => noDiv n (((primesBelow B).drop 1).take t)) ↔
        (x.Prime ∧ B ≤ x ∧ x < (Nat.nth Nat.Prime (t + 1)) ^ 2) := by
      intro x
      rw [List.mem_filter, mem_candList]
      constructor
      · rintro ⟨⟨j, hj, rfl⟩, hnd⟩
        have hxodd : (B + 2 * j) % 2 = 1 := by omega
        have hxlt : B + 2 * j < (Nat.nth Nat.Prime (t + 1)) ^ 2 := by omega
        have hxp : (B + 2 * j).Prime :=
          (trial_prime (B + 2 * j) (Nat.nth Nat.Prime (t + 1)) hxodd (by omega) hxlt
            _ hmem_inst (hall_inst _ (by omega))).mp hnd
        exact ⟨hxp, by omega, hxlt⟩
      · rintro ⟨hxp, hxB, hxlt⟩
        have hx2 : x ≠ 2 := by omega
        have hxodd : x % 2 = 1 := Nat.odd_iff.mp (hxp.odd_of_ne_two hx2)
        refine ⟨⟨(x - B) / 2, by omega, by omega⟩,
          (trial_prime x (Nat.nth Nat.Prime (t + 1)) hxodd (by omega) hxlt
            _ hmem_inst (hall_inst _ hxB)).mpr hxp⟩
    have hq2np : ¬ ((Nat.nth Nat.Prime (t + 1)) ^ 2).Prime := by
      intro hpp
      rcases hpp.eq_one_or_self_of_dvd (Nat.nth Nat.Prime (t + 1))
        (dvd_pow_self _ (by norm_num)) with h | h
      · omega
      · have h2 : Nat.nth Nat.Prime (t + 1) * 1 =
            Nat.nth Nat.Prime (t + 1) * Nat.nth Nat.Prime (t + 1) := by
          rw [Nat.mul_one, ← hqq, ← h]
        have h3 := Nat.eq_of_mul_eq_mul_left (show 0 < Nat.nth Nat.Prime (t + 1) by omega) h2
        omega
    have hq21np : ¬ ((Nat.nth Nat.Prime (t + 1)) ^ 2 + 1).Prime := by
      intro hpp
      have heven : 2 ∣ (Nat.nth Nat.Prime (t + 1)) ^ 2 + 1 := by omega
      rcases hpp.eq_one_or_self_of_dvd 2 heven with h | h <;> omega
    have hcache : primesBelow B ++ (candList B (((Nat.nth Nat.Prime (t + 1)) ^ 2 - B + 1) / 2)).filter
          (fun n => noDiv n (((primesBelow B).drop 1).take t)) =
        primesBelow ((Nat.nth Nat.Prime (t + 1)) ^ 2 + 2) := by
      apply sorted_lt_eq_of_mem_iff
      · rw [List.pairwise_append]
        refine ⟨primesBelow_sorted B, (candList_sorted _ _).filter _, ?_⟩
        intro a ha b hb
        have haB := (mem_primesBelow.mp ha).1
        have hbB := ((hmemnews b).mp hb).2.1
        omega
      · exact primesBelow_sorted _
      · intro x
        rw [List.mem_append, mem_primesBelow, hmemnews x, mem_primesBelow]
        constructor
        · rintro (⟨hxB, hxp⟩ | ⟨hxp, hxB, hxlt⟩) <;> exact ⟨by omega, hxp⟩
        · rintro ⟨hxlt, hxp⟩
          rcases Nat.lt_or_ge x B with hc | hc
          · exact Or.inl ⟨hc, hxp⟩
          · refine Or.inr ⟨hxp, hc, ?_⟩
            rcases Nat.lt_or_ge x ((Nat.nth Nat.Prime (t + 1)) ^ 2) with hc2 | hc2
            · exact hc2
            · exfalso
              have hxcases : x = (Nat.nth Nat.Prime (t + 1)) ^ 2 ∨
                  x = (Nat.nth Nat.Prime (t + 1)) ^ 2 + 1 := by omega
              rcases hxcases with rfl | rfl
              · exact hq2np hxp
              · exact hq21np hxp
    obtain ⟨r, hrp, hqr, hr2q⟩ := Nat.bertrand (Nat.nth Nat.Prime (t + 1)) (by omega)
    have h3q : 3 * Nat.nth Nat.Prime (t + 1) ≤
        Nat.nth Nat.Prime (t + 1) * Nat.nth Nat.Prime (t + 1) :=
      Nat.mul_le_mul_right _ hq3
    have hr_lt : r < (Nat.nth Nat.Prime (t + 1)) ^ 2 + 2 := by omega
    have hnth_le : Nat.nth Nat.Prime (t + 2) ≤ r := nth_succ_le_of_prime_gt hrp hqr
    have hcnt2 : t + 3 ≤ Nat.count Nat.Prime ((Nat.nth Nat.Prime (t + 1)) ^ 2 + 2) := by
      have h := nth_prime_lt_iff_lt_count.mp
        (show Nat.nth Nat.Prime (t + 2) < (Nat.nth Nat.Prime (t + 1)) ^ 2 + 2 by omega)
      omega
    have hble2 : (Nat.nth Nat.Prime (t + 1)) ^ 2 + 2 ≤ (Nat.nth Nat.Prime (t + 2)) ^ 2 := by
      have hgt : Nat.nth Nat.Prime (t + 1) < Nat.nth Nat.Prime (t + 2) :=
        nth_prime_lt_nth_prime.mpr (by omega)
      have h2 : (Nat.nth Nat.Prime (t + 1) + 1) ^ 2 ≤ (Nat.nth Nat.Prime (t + 2)) ^ 2 :=
        Nat.pow_le_pow_left (by omega) 2
      have h3 : (Nat.nth Nat.Prime (t + 1) + 1) ^ 2 =
          (Nat.nth Nat.Prime (t + 1)) ^ 2 + 2 * Nat.nth Nat.Prime (t + 1) + 1 := by ring
      omega
    refine ⟨(Nat.nth Nat.Prime (t + 1)) ^ 2 + 2, by omega, by omega, hcnt2, hble2, ?_⟩
    rw [sieveState, hstate, sieveStep_eq, hgetq]
    have htop : t + 1 - 1 = t := by omega
    rw [htop, segLoop_eq]
    rw [List.reverse_nil, List.nil_append, hcache]

end Primes

namespace Primes

theorem sieveList_eq (t : Nat) : ∃ B,
    5 ≤ B ∧ t + 2 ≤ Nat.count Nat.Prime B ∧ sieveList t = primesBelow B := by
  obtain ⟨B, h5, _, hcnt, _, hstate⟩ := sieve_inv t
  exact ⟨B, h5, hcnt, by rw [sieveList, hstate]⟩

theorem sieveList_getD_nth (t : Nat) {i : Nat} (hi : i < t + 2) :
    (sieveList t).getD i 0 = Nat.nth Nat.Prime i := by
  obtain ⟨B, _, hcnt, heq⟩ := sieveList_eq t
  rw [heq]
  exact primesBelow_getD B (by omega)

theorem genprimesStream_eq (j : Nat) : genprimesStream j = Nat.nth Nat.Prime (j + 2) := by
  rw [genprimesStream]
  exact sieveList_getD_nth (j + 1) (by omega)

open LazySeq in
theorem fullVal_primesInit : ∀ i, fullVal primesInit i = Nat.nth Nat.Prime i := by
  intro i
  match i with
  | 0 =>
    rw [nth_prime_zero]
    rfl
  | 1 =>
    rw [nth_prime_one]
    rfl
  | (j+2) =>
    rw [fullVal, if_neg (by
      show ¬ (j + 2 < primesInit.size)
      have h2 : primesInit.size = 2 := rfl
      omega)]
    show genprimesStream (0 + (j + 2 - primesInit.size)) = _
    have harg : 0 + (j + 2 - primesInit.size) = j := by
      have h2 : primesInit.size = 2 := rfl
      omega
    rw [harg, genprimesStream_eq]

open LazySeq in
theorem fullVal_primesInit_mono : ∀ i j, i ≤ j → fullVal primesInit i ≤ fullVal primesInit j := by
  intro i j hij
  rw [fullVal_primesInit, fullVal_primesInit]
  rcases Nat.eq_or_lt_of_le hij with rfl | h
  · exact Nat.le_refl _
  · exact Nat.le_of_lt (nth_prime_lt_nth_prime.mpr h)

end Primes

namespace Primes

open LazySeq

/-- Claim C10: `Primes.__contains__` never mutates the cache: in every
state with a nonempty cache (every reachable state of `primes` is seeded
with `[2, 3]`), both branches only binary-search the cached prefix; the
`n > last` branch adds a pure one-shot trial division.  The producer is
never consumed. -/
theorem claim_C10_isPrime_frame (s : LazySeq Nat) (n fuel : Nat) (hs : 0 < s.size) :
    (primes_contains s n fuel).2 = s := by
  have hhard : ∀ root tp, (pcHard n root tp).2 = tp.2 := by
    intro root tp
    rw [pcHard]
    split
    · rfl
    · split <;> rfl
  rw [primes_contains]
  by_cases h1 : n ≤ s.lastD
  · rw [if_pos h1]
    show (insertpos s n fuel).2 = s
    rw [insertpos, if_pos ⟨hs, h1⟩]
  · rw [if_neg h1, hhard]
    by_cases h2 : Nat.sqrt n > s.lastD
    · rw [if_pos h2]
    · rw [if_neg h2]
      show (insertpos s (Nat.sqrt n) fuel).2 = s
      rw [insertpos, if_pos ⟨hs, by omega⟩]

/-- Claim C10, witnessed: a membership query on the freshly initialised
primes object leaves it unchanged. -/
theorem claim_C10_witness : (primes_contains primesInit 7 0).2 = primesInit :=
  claim_C10_isPrime_frame primesInit 7 0 (by decide)

/-- Claim C2 fails on the code: in the freshly initialised state (cache
`[2, 3]`), `isprime(4)` returns `True` although 2 divides 4 and
2 lies in `[2, isqrt 4]`: the trial division skips the cached prime 2,
`insertpos(root)` excludes the prime equal to `root`, and the one-shot
range `range(last + 2, root + 1, 2)` is empty.  (At `n = 1` the claim's
iff also fails in the other direction: `isprime(1)` is `False` although
1 has no divisor in `[2, isqrt 1] = ∅`.)  The code, not the claim, is
wrong at `n = 4`: membership in `Primes` plainly means primality. -/
theorem claim_C2_isprime_bug :
    (primes_contains primesInit 4 0).1 = true ∧ 2 ∣ 4 ∧ 2 ≤ Nat.sqrt 4 ∧ ¬ (4 : Nat).Prime ∧
    (primes_contains primesInit 1 0).1 = false ∧ Nat.sqrt 1 < 2 := by
  have hsq : Nat.sqrt 4 = 2 := by norm_num
  refine ⟨?_, by norm_num, by rw [hsq], by norm_num, by decide, by rw [Nat.sqrt_one]; omega⟩
  rw [primes_contains, hsq]
  decide

end Primes

namespace Primes

open LazySeq

/-- The odd primes below 1089, read off the sieve cache after 11 segments
(the boundary is then 1371). -/
def oddPrimesSmall : List Nat := ((sieveList 11).filter (fun x => decide (x < 1089))).drop 1

/-- The product of the odd primes below 1089 (checked against
`oddPrimesSmall` below); one `Nat.gcd` against it decides primality of
any odd number in (1088, 1089^2). -/
def Pconst : Nat := 16654099924025690560880991628826166333626342440673565018885011847989446733904116049017326766242103765107692521813541748282232863400570289440199133966941465111845637269507076961986313197141424158604886280314066047206653222207353469933659597534156792443205461406819169388949586947835045093159845504447468775966698021844877312299410082155138084889754937424209533235987225896417426941898070706156623031098627133463296265341987363052884725941333218996085207555

set_option maxRecDepth 4000 in
theorem sieveList11 : sieveList 11 = primesBelow 1371 ∧ 13 ≤ Nat.count Nat.Prime 1371 := by
  obtain ⟨B, h5, _, hcnt, _, hstate⟩ := sieve_inv 11
  have hB : B = 1371 := by
    have h1 : (sieveState 11).2.1 = B := by rw [hstate]
    have h2 : (sieveState 11).2.1 = 1371 := by decide
    omega
  subst hB
  exact ⟨by rw [sieveList, hstate], hcnt⟩

theorem primesBelow_filter_lt {C B : Nat} (h : C ≤ B) :
    (primesBelow B).filter (fun x => decide (x < C)) = primesBelow C := by
  apply sorted_lt_eq_of_mem_iff
  · exact (primesBelow_sorted B).filter _
  · exact primesBelow_sorted C
  · intro x
    rw [List.mem_filter, mem_primesBelow, mem_primesBelow]
    constructor
    · rintro ⟨⟨hB, hp⟩, hC⟩
      simp only [decide_eq_true_eq] at hC
      exact ⟨hC, hp⟩
    · rintro ⟨hC, hp⟩
      exact ⟨⟨by omega, hp⟩, by simp only [decide_eq_true_eq]; omega⟩

set_option maxRecDepth 4000 in
theorem count_1089 : Nat.count Nat.Prime 1089 = 181 := by
  rw [← primesBelow_length, ← primesBelow_filter_lt (show 1089 ≤ 1371 by omega),
    ← sieveList11.1]
  decide

theorem oddPrimesSmall_eq : oddPrimesSmall = (primesBelow 1089).drop 1 := by
  rw [oddPrimesSmall, sieveList11.1, primesBelow_filter_lt (show 1089 ≤ 1371 by omega)]

theorem mem_primesBelow_drop1 {p C : Nat} (hC : 3 ≤ C) :
    p ∈ (primesBelow C).drop 1 ↔ p.Prime ∧ 2 < p ∧ p < C := by
  have hcnt : 1 ≤ Nat.count Nat.Prime C := by
    apply nth_prime_lt_iff_lt_count.mp
    rw [nth_prime_zero]
    omega
  have h0 : (primesBelow C).get? 0 = some 2 := by
    rw [primesBelow_get? C 0 (by omega), nth_prime_zero]
  rcases hl : primesBelow C with _ | ⟨a, rest⟩
  · rw [hl] at h0
    cases h0
  · rw [hl] at h0
    have ha : a = 2 := by
      have h1 : some a = some 2 := h0
      exact Option.some.inj h1
    subst ha
    have hsorted := primesBelow_sorted C
    rw [hl] at hsorted
    show p ∈ rest ↔ _
    constructor
    · intro hp
      have hmem : p ∈ primesBelow C := by
        rw [hl]
        exact List.mem_cons_of_mem 2 hp
      obtain ⟨hlt, hpp⟩ := mem_primesBelow.mp hmem
      exact ⟨hpp, List.rel_of_pairwise_cons hsorted hp, hlt⟩
    · rintro ⟨hpp, h2p, hpC⟩
      have hmem : p ∈ primesBelow C := mem_primesBelow.mpr ⟨hpC, hpp⟩
      rw [hl] at hmem
      rcases List.mem_cons.mp hmem with rfl | hmem2
      · omega
      · exact hmem2

theorem mem_oddPrimesSmall {p : Nat} :
    p ∈ oddPrimesSmall ↔ p.Prime ∧ 2 < p ∧ p < 1089 := by
  rw [oddPrimesSmall_eq]
  exact mem_primesBelow_drop1 (by omega)

theorem prime_dvd_list_prod {p : Nat} (hp : p.Prime) :
    ∀ l : List Nat, p ∣ l.prod → ∃ a ∈ l, p ∣ a := by
  intro l
  induction l with
  | nil =>
    intro h
    rw [List.prod_nil] at h
    exact absurd (Nat.dvd_one.mp h) hp.one_lt.ne'
  | cons a as ih =>
    intro h
    rw [List.prod_cons] at h
    rcases (Nat.Prime.dvd_mul hp).mp h with h2 | h2
    · exact ⟨a, List.mem_cons_self a as, h2⟩
    · obtain ⟨b, hb, hbd⟩ := ih h2
      exact ⟨b, List.mem_cons_of_mem a hb, hbd⟩

/-- For odd `n` in `(1088, 1089^2)`, primality is one gcd against the
product of the odd primes below 1089. -/
theorem gcd_prime_test {n : Nat} (hodd : n % 2 = 1) (h1 : 1088 < n) (h2 : n < 1185921)
    (hP : Pconst = oddPrimesSmall.prod) :
    (Nat.gcd n Pconst = 1) ↔ n.Prime := by
  constructor
  · intro hg
    by_contra hnp
    have hminp : (Nat.minFac n).Prime := Nat.minFac_prime (by omega)
    have hdvd : Nat.minFac n ∣ n := Nat.minFac_dvd n
    have hsq : Nat.minFac n ^ 2 ≤ n := Nat.minFac_sq_le_self (by omega) hnp
    have hlt : Nat.minFac n < 1089 := by
      by_contra hge
      have h3 := Nat.pow_le_pow_left (Nat.le_of_not_lt hge) 2
      norm_num at h3
      omega
    have hne2 : 2 < Nat.minFac n := by
      rcases Nat.lt_or_ge 2 (Nat.minFac n) with h | h
      · exact h
      · exfalso
        have h22 := hminp.two_le
        have heq : Nat.minFac n = 2 := by omega
        rw [heq] at hdvd
        omega
    have hmem : Nat.minFac n ∈ oddPrimesSmall := mem_oddPrimesSmall.mpr ⟨hminp, hne2, hlt⟩
    have hdP : Nat.minFac n ∣ Pconst := by
      rw [hP]
      exact List.dvd_prod hmem
    have : Nat.minFac n ∣ 1 := by
      rw [← hg]
      exact Nat.dvd_gcd hdvd hdP
    exact hminp.one_lt.ne' (Nat.dvd_one.mp this)
  · intro hp
    rcases hp.eq_one_or_self_of_dvd (Nat.gcd n Pconst) (Nat.gcd_dvd_left n Pconst) with h | h
    · exact h
    · exfalso
      have hdP : n ∣ Pconst := by
        rw [← h]
        exact Nat.gcd_dvd_right n Pconst
      rw [hP] at hdP
      obtain ⟨a, ha, had⟩ := prime_dvd_list_prod hp oddPrimesSmall hdP
      obtain ⟨hap, _, haC⟩ := mem_oddPrimesSmall.mp ha
      have : n ≤ a := Nat.le_of_dvd (by omega) had
      omega

end Primes

namespace Primes

set_option maxRecDepth 4000 in
theorem Pconst_eq : Pconst = oddPrimesSmall.prod := by decide

/-- 1 when `Nat.gcd n Pconst = 1`, else 0 (the gcd is never 0 here). -/
def gcdInd (n : Nat) : Nat := 2 - Nat.gcd n Pconst

def leaf16 (s : Nat) : Nat :=
  gcdInd s + gcdInd (s + 2) + gcdInd (s + 4) + gcdInd (s + 6) + gcdInd (s + 8) +
    gcdInd (s + 10) + gcdInd (s + 12) + gcdInd (s + 14) + gcdInd (s + 16) + gcdInd (s + 18) +
    gcdInd (s + 20) + gcdInd (s + 22) + gcdInd (s + 24) + gcdInd (s + 26) + gcdInd (s + 28) +
    gcdInd (s + 30)

/-- Balanced divide-and-conquer count of `gcdInd` over `16 * c`
consecutive odd numbers starting at `s`, with recursion depth `d`
(kernel-evaluation-friendly: the recursion depth stays logarithmic). -/
def fcB : Nat → Nat → Nat → Nat
  | _, _, 0 => 0
  | 0, s, _+1 => leaf16 s
  | d+1, s, c+1 =>
    if c == 0 then leaf16 s
    else fcB d s ((c + 1) / 2) + fcB d (s + 32 * ((c + 1) / 2)) (c + 1 - (c + 1) / 2)

/-- Left-to-right sum of `gcdInd` over `c` consecutive odd numbers. -/
def gsum (s : Nat) : Nat → Nat
  | 0 => 0
  | c+1 => gsum s c + gcdInd (s + 2 * c)

theorem gsum_succ (s c : Nat) : gsum s (c + 1) = gsum s c + gcdInd (s + 2 * c) := rfl

theorem gsum_add (s : Nat) : ∀ b a, gsum s (a + b) = gsum s a + gsum (s + 2 * a) b := by
  intro b
  induction b with
  | zero =>
    intro a
    rw [Nat.add_zero, gsum, Nat.add_zero]
  | succ b ih =>
    intro a
    have h1 : a + (b + 1) = (a + b) + 1 := by omega
    rw [h1, gsum_succ, ih a, gsum_succ]
    have h2 : s + 2 * (a + b) = s + 2 * a + 2 * b := by omega
    rw [h2, Nat.add_assoc]

theorem leaf16_eq (s : Nat) : leaf16 s = gsum s 16 := by
  have e16 : (16 : Nat) = 15 + 1 := rfl
  have e15 : (15 : Nat) = 14 + 1 := rfl
  have e14 : (14 : Nat) = 13 + 1 := rfl
  have e13 : (13 : Nat) = 12 + 1 := rfl
  have e12 : (12 : Nat) = 11 + 1 := rfl
  have e11 : (11 : Nat) = 10 + 1 := rfl
  have e10 : (10 : Nat) = 9 + 1 := rfl
  have e9 : (9 : Nat) = 8 + 1 := rfl
  have e8 : (8 : Nat) = 7 + 1 := rfl
  have e7 : (7 : Nat) = 6 + 1 := rfl
  have e6 : (6 : Nat) = 5 + 1 := rfl
  have e5 : (5 : Nat) = 4 + 1 := rfl
  have e4 : (4 : Nat) = 3 + 1 := rfl
  have e3 : (3 : Nat) = 2 + 1 := rfl
  have e2 : (2 : Nat) = 1 + 1 := rfl
  have e1 : (1 : Nat) = 0 + 1 := rfl
  rw [e16, gsum_succ, e15, gsum_succ, e14, gsum_succ, e13, gsum_succ, e12, gsum_succ,
    e11, gsum_succ, e10, gsum_succ, e9, gsum_succ, e8, gsum_succ, e7, gsum_succ,
    e6, gsum_succ, e5, gsum_succ, e4, gsum_succ, e3, gsum_succ, e2, gsum_succ,
    e1, gsum_succ]
  rw [show gsum s 0 = 0 from rfl, leaf16]
  norm_num

theorem fcB_eq : ∀ d c s, c ≤ 2 ^ d → fcB d s c = gsum s (16 * c) := by
  intro d
  induction d with
  | zero =>
    intro c s hc
    match c with
    | 0 => rw [fcB]; rfl
    | 1 => rw [fcB, leaf16_eq]
    | (c+2) => omega
  | succ d ih =>
    intro c s hc
    match c with
    | 0 => rw [fcB]; rfl
    | (c+1) =>
      rw [fcB]
      by_cases hc0 : c = 0
      · subst hc0
        rw [if_pos (by rfl), leaf16_eq]
      · rw [if_neg (by simpa using hc0)]
        have hpow : 2 ^ (d + 1) = 2 * 2 ^ d := by rw [Nat.pow_succ]; omega
        have hh1 : (c + 1) / 2 ≤ 2 ^ d := by omega
        have hh2 : c + 1 - (c + 1) / 2 ≤ 2 ^ d := by omega
        rw [ih ((c + 1) / 2) s hh1, ih (c + 1 - (c + 1) / 2) (s + 32 * ((c + 1) / 2)) hh2]
        have hsplit : 16 * (c + 1) = 16 * ((c + 1) / 2) + 16 * (c + 1 - (c + 1) / 2) := by omega
        rw [hsplit, gsum_add]
        have hoff : s + 2 * (16 * ((c + 1) / 2)) = s + 32 * ((c + 1) / 2) := by omega
        rw [hoff]

theorem not_prime_even {k : Nat} (h2 : 2 ∣ k) (hk : 2 < k) : ¬ k.Prime := by
  intro hp
  rcases hp.eq_one_or_self_of_dvd 2 h2 with h | h <;> omega

theorem gcdInd_eq {x : Nat} (hodd : x % 2 = 1) (h1 : 1088 < x) (h2 : x < 1185921) :
    gcdInd x = if x.Prime then 1 else 0 := by
  rw [gcdInd]
  by_cases hp : x.Prime
  · rw [if_pos hp, (gcd_prime_test hodd h1 h2 Pconst_eq).mpr hp]
  · rw [if_neg hp]
    have hne : Nat.gcd x Pconst ≠ 1 := fun hc => hp ((gcd_prime_test hodd h1 h2 Pconst_eq).mp hc)
    have hpos : Nat.gcd x Pconst ≠ 0 := by
      intro hc
      have := (Nat.gcd_eq_zero_iff.mp hc).1
      omega
    omega

theorem candList_snoc (s c : Nat) : candList s (c + 1) = candList s c ++ [s + 2 * c] := by
  rw [candList, candList, List.range_succ, List.map_append]
  rfl

/-- Over a window of odd numbers inside `(1088, 1089^2)`, the gcd count
is the number of primes. -/
theorem gsum_eq_countP (s : Nat) (hodd : s % 2 = 1) (hlo : 1088 < s) :
    ∀ c, s + 2 * c ≤ 1185921 →
      gsum s c = (candList s c).countP (fun n => decide n.Prime) := by
  intro c
  induction c with
  | zero =>
    intro hhi
    rw [gsum, candList]
    rfl
  | succ c ih =>
    intro hhi
    rw [gsum_succ, candList_snoc, List.countP_append, ih (by omega)]
    congr 1
    rw [gcdInd_eq (by omega) (by omega) (by omega)]
    by_cases hp : (s + 2 * c).Prime
    · rw [if_pos hp]
      simp [hp]
    · rw [if_neg hp]
      simp [hp]

/-- Counting primes interval by interval: for odd `s > 2`, the primes
below `s + 2 * c` are those below `s` plus the primes among the odd
numbers `s, s + 2, ..., s + 2 * (c - 1)`. -/
theorem count_add_countP (s : Nat) (h2 : 2 < s) (hodd : s % 2 = 1) :
    ∀ c, Nat.count Nat.Prime (s + 2 * c) =
      Nat.count Nat.Prime s + (candList s c).countP (fun n => decide n.Prime) := by
  intro c
  induction c with
  | zero =>
    rw [Nat.mul_zero, Nat.add_zero, candList]
    rfl
  | succ c ih =>
    have hstep : s + 2 * (c + 1) = (s + 2 * c + 1) + 1 := by omega
    rw [hstep, Nat.count_succ, Nat.count_succ, ih, candList_snoc, List.countP_append]
    have hnp : ¬ (s + 2 * c + 1).Prime :=
      not_prime_even (by omega) (by omega)
    rw [if_neg hnp]
    by_cases hp : (s + 2 * c).Prime
    · rw [if_pos hp]
      simp [hp]
      omega
    · rw [if_neg hp]
      simp [hp]

end Primes

namespace Primes

/-- Converting a balanced chunk count to the left-to-right sum. -/
theorem chunk_to_gsum {s c v n : Nat} (hc : c ≤ 512) (hn : 16 * c = n) (h : fcB 9 s c = v) :
    gsum s n = v := by
  have he := fcB_eq 9 c s (by
    have h2 : (2 : Nat) ^ 9 = 512 := by norm_num
    omega)
  rw [h, hn] at he
  exact he.symm

set_option maxRecDepth 4000 in
set_option maxHeartbeats 1000000 in
theorem gsum_chunk0 : fcB 9 1089 512 = 1828 := by decide

set_option maxRecDepth 4000 in
set_option maxHeartbeats 1000000 in
theorem gsum_chunk1 : fcB 9 17473 512 = 1616 := by decide

set_option maxRecDepth 4000 in
set_option maxHeartbeats 1000000 in
theorem gsum_chunk2 : fcB 9 33857 512 = 1532 := by decide

set_option maxRecDepth 4000 in
set_option maxHeartbeats 1000000 in
theorem gsum_chunk3 : fcB 9 50241 512 = 1485 := by decide

set_option maxRecDepth 4000 in
set_option maxHeartbeats 1000000 in
theorem gsum_chunk4 : fcB 9 66625 512 = 1465 := by decide

set_option maxRecDepth 4000 in
set_option maxHeartbeats 1000000 in
theorem gsum_chunk5 : fcB 9 83009 512 = 1432 := by decide

set_option maxRecDepth 4000 in
set_option maxHeartbeats 1000000 in
theorem gsum_chunk6 : fcB 9 99393 512 = 1399 := by decide

set_option maxRecDepth 4000 in
set_option maxHeartbeats 1000000 in
theorem gsum_chunk7 : fcB 9 115777 512 = 1401 := by decide

set_option maxRecDepth 4000 in
set_option maxHeartbeats 1000000 in
theorem gsum_chunk8 : fcB 9 132161 512 = 1379 := by decide

set_option maxRecDepth 4000 in
set_option maxHeartbeats 1000000 in
theorem gsum_chunk9 : fcB 9 148545 512 = 1371 := by decide

set_option maxRecDepth 4000 in
set_option maxHeartbeats 1000000 in
theorem gsum_chunk10 : fcB 9 164929 512 = 1351 := by decide

set_option maxRecDepth 4000 in
set_option maxHeartbeats 1000000 in
theorem gsum_chunk11 : fcB 9 181313 512 = 1355 := by decide

set_option maxRecDepth 4000 in
set_option maxHeartbeats 1000000 in
theorem gsum_chunk12 : fcB 9 197697 512 = 1342 := by decide

set_option maxRecDepth 4000 in
set_option maxHeartbeats 1000000 in
theorem gsum_chunk13 : fcB 9 214081 512 = 1342 := by decide

set_option maxRecDepth 4000 in
set_option maxHeartbeats 1000000 in
theorem gsum_chunk14 : fcB 9 230465 512 = 1305 := by decide

set_option maxRecDepth 4000 in
set_option maxHeartbeats 1000000 in
theorem gsum_chunk15 : fcB 9 246849 512 = 1302 := by decide

set_option maxRecDepth 4000 in
set_option maxHeartbeats 1000000 in
theorem gsum_chunk16 : fcB 9 263233 512 = 1319 := by decide

set_option maxRecDepth 4000 in
set_option maxHeartbeats 1000000 in
theorem gsum_chunk17 : fcB 9 279617 512 = 1286 := by decide

set_option maxRecDepth 4000 in
set_option maxHeartbeats 1000000 in
theorem gsum_chunk18 : fcB 9 296001 512 = 1294 := by decide

set_option maxRecDepth 4000 in
set_option maxHeartbeats 1000000 in
theorem gsum_chunk19 : fcB 9 312385 512 = 1320 := by decide

set_option maxRecDepth 4000 in
set_option maxHeartbeats 1000000 in
theorem gsum_chunk20 : fcB 9 328769 512 = 1287 := by decide

set_option maxRecDepth 4000 in
set_option maxHeartbeats 1000000 in
theorem gsum_chunk21 : fcB 9 345153 512 = 1276 := by decide

set_option maxRecDepth 4000 in
set_option maxHeartbeats 1000000 in
theorem gsum_chunk22 : fcB 9 361537 512 = 1269 := by decide

set_option maxRecDepth 4000 in
set_option maxHeartbeats 1000000 in
theorem gsum_chunk23 : fcB 9 377921 512 = 1284 := by decide

set_option maxRecDepth 4000 in
set_option maxHeartbeats 1000000 in
theorem gsum_chunk24 : fcB 9 394305 512 = 1246 := by decide

set_option maxRecDepth 4000 in
set_option maxHeartbeats 1000000 in
theorem gsum_chunk25 : fcB 9 410689 512 = 1263 := by decide

set_option maxRecDepth 4000 in
set_option maxHeartbeats 1000000 in
theorem gsum_chunk26 : fcB 9 427073 512 = 1291 := by decide

set_option maxRecDepth 4000 in
set_option maxHeartbeats 1000000 in
theorem gsum_chunk27 : fcB 9 443457 512 = 1229 := by decide

set_option maxRecDepth 4000 in
set_option maxHeartbeats 1000000 in
theorem gsum_chunk28 : fcB 9 459841 512 = 1273 := by decide

set_option maxRecDepth 4000 in
set_option maxHeartbeats 1000000 in
theorem gsum_chunk29 : fcB 9 476225 512 = 1236 := by decide

set_option maxRecDepth 4000 in
set_option maxHeartbeats 1000000 in
theorem gsum_chunk30 : fcB 9 492609 512 = 1257 := by decide

set_option maxRecDepth 4000 in
set_option maxHeartbeats 1000000 in
theorem gsum_chunk31 : fcB 9 508993 512 = 1253 := by decide

set_option maxRecDepth 4000 in
set_option maxHeartbeats 1000000 in
theorem gsum_chunk32 : fcB 9 525377 512 = 1235 := by decide

set_option maxRecDepth 4000 in
set_option maxHeartbeats 1000000 in
theorem gsum_chunk33 : fcB 9 541761 512 = 1228 := by decide

set_option maxRecDepth 4000 in
set_option maxHeartbeats 1000000 in
theorem gsum_chunk34 : fcB 9 558145 512 = 1238 := by decide

set_option maxRecDepth 4000 in
set_option maxHeartbeats 1000000 in
theorem gsum_chunk35 : fcB 9 574529 512 = 1245 := by decide

set_option maxRecDepth 4000 in
set_option maxHeartbeats 1000000 in
theorem gsum_chunk36 : fcB 9 590913 512 = 1237 := by decide

set_option maxRecDepth 4000 in
set_option maxHeartbeats 1000000 in
theorem gsum_chunk37 : fcB 9 607297 512 = 1228 := by decide

set_option maxRecDepth 4000 in
set_option maxHeartbeats 1000000 in
theorem gsum_chunk38 : fcB 9 623681 512 = 1202 := by decide

set_option maxRecDepth 4000 in
set_option maxHeartbeats 1000000 in
theorem gsum_chunk39 : fcB 9 640065 512 = 1220 := by decide

set_option maxRecDepth 4000 in
set_option maxHeartbeats 1000000 in
theorem gsum_chunk40 : fcB 9 656449 512 = 1221 := by decide

set_option maxRecDepth 4000 in
set_option maxHeartbeats 1000000 in
theorem gsum_chunk41 : fcB 9 672833 512 = 1228 := by decide

set_option maxRecDepth 4000 in
set_option maxHeartbeats 1000000 in
theorem gsum_chunk42 : fcB 9 689217 512 = 1218 := by decide

set_option maxRecDepth 4000 in
set_option maxHeartbeats 1000000 in
theorem gsum_chunk43 : fcB 9 705601 512 = 1213 := by decide

set_option maxRecDepth 4000 in
set_option maxHeartbeats 1000000 in
theorem gsum_chunk44 : fcB 9 721985 512 = 1222 := by decide

set_option maxRecDepth 4000 in
set_option maxHeartbeats 1000000 in
theorem gsum_chunk45 : fcB 9 738369 512 = 1194 := by decide

set_option maxRecDepth 4000 in
set_option maxHeartbeats 1000000 in
theorem gsum_chunk46 : fcB 9 754753 512 = 1223 := by decide

set_option maxRecDepth 4000 in
set_option maxHeartbeats 1000000 in
theorem gsum_chunk47 : fcB 9 771137 512 = 1202 := by decide

set_option maxRecDepth 4000 in
set_option maxHeartbeats 1000000 in
theorem gsum_chunk48 : fcB 9 787521 512 = 1210 := by decide

set_option maxRecDepth 4000 in
set_option maxHeartbeats 1000000 in
theorem gsum_chunk49 : fcB 9 803905 512 = 1205 := by decide

set_option maxRecDepth 4000 in
set_option maxHeartbeats 1000000 in
theorem gsum_chunk50 : fcB 9 820289 512 = 1213 := by decide

set_option maxRecDepth 4000 in
set_option maxHeartbeats 1000000 in
theorem gsum_chunk51 : fcB 9 836673 512 = 1191 := by decide

set_option maxRecDepth 4000 in
set_option maxHeartbeats 1000000 in
theorem gsum_chunk52 : fcB 9 853057 512 = 1213 := by decide

set_option maxRecDepth 4000 in
set_option maxHeartbeats 1000000 in
theorem gsum_chunk53 : fcB 9 869441 512 = 1191 := by decide

set_option maxRecDepth 4000 in
set_option maxHeartbeats 1000000 in
theorem gsum_chunk54 : fcB 9 885825 512 = 1189 := by decide

set_option maxRecDepth 4000 in
set_option maxHeartbeats 1000000 in
theorem gsum_chunk55 : fcB 9 902209 512 = 1199 := by decide

set_option maxRecDepth 4000 in
set_option maxHeartbeats 1000000 in
theorem gsum_chunk56 : fcB 9 918593 512 = 1201 := by decide

set_option maxRecDepth 4000 in
set_option maxHeartbeats 1000000 in
theorem gsum_chunk57 : fcB 9 934977 512 = 1175 := by decide

set_option maxRecDepth 4000 in
set_option maxHeartbeats 1000000 in
theorem gsum_chunk58 : fcB 9 951361 512 = 1171 := by decide

set_option maxRecDepth 4000 in
set_option maxHeartbeats 1000000 in
theorem gsum_chunk59 : fcB 9 967745 512 = 1178 := by decide

set_option maxRecDepth 4000 in
set_option maxHeartbeats 1000000 in
theorem gsum_chunk60 : fcB 9 984129 512 = 1179 := by decide

set_option maxRecDepth 4000 in
set_option maxHeartbeats 1000000 in
theorem gsum_chunk61 : fcB 9 1000513 512 = 1208 := by decide

set_option maxRecDepth 4000 in
set_option maxHeartbeats 1000000 in
theorem gsum_chunk62 : fcB 9 1016897 512 = 1180 := by decide

set_option maxRecDepth 4000 in
set_option maxHeartbeats 1000000 in
theorem gsum_chunk63 : fcB 9 1033281 512 = 1181 := by decide

set_option maxRecDepth 4000 in
set_option maxHeartbeats 1000000 in
theorem gsum_chunk64 : fcB 9 1049665 512 = 1152 := by decide

set_option maxRecDepth 4000 in
set_option maxHeartbeats 1000000 in
theorem gsum_chunk65 : fcB 9 1066049 512 = 1197 := by decide

set_option maxRecDepth 4000 in
set_option maxHeartbeats 1000000 in
theorem gsum_chunk66 : fcB 9 1082433 512 = 1174 := by decide

set_option maxRecDepth 4000 in
set_option maxHeartbeats 1000000 in
theorem gsum_chunk67 : fcB 9 1098817 512 = 1202 := by decide

set_option maxRecDepth 4000 in
set_option maxHeartbeats 1000000 in
theorem gsum_chunk68 : fcB 9 1115201 512 = 1167 := by decide

set_option maxRecDepth 4000 in
set_option maxHeartbeats 1000000 in
theorem gsum_chunk69 : fcB 9 1131585 512 = 1162 := by decide

set_option maxRecDepth 4000 in
set_option maxHeartbeats 1000000 in
theorem gsum_chunk70 : fcB 9 1147969 361 = 838 := by decide

/-- The gcd-indicator count over the 579216 odd numbers from 1089. -/
theorem gsum_total : gsum 1089 579216 = 89818 := by
  have t0 : gsum 1089 8192 = 1828 := chunk_to_gsum (by norm_num) (by norm_num) gsum_chunk0
  have g1 : gsum 17473 8192 = 1616 := chunk_to_gsum (by norm_num) (by norm_num) gsum_chunk1
  have t1 : gsum 1089 16384 = 3444 := by
    have h := gsum_add 1089 8192 8192
    rw [show (8192 + 8192 : Nat) = 16384 from by norm_num,
      show (1089 + 2 * 8192 : Nat) = 17473 from by norm_num, t0, g1] at h
    exact h.trans (by norm_num)
  have g2 : gsum 33857 8192 = 1532 := chunk_to_gsum (by norm_num) (by norm_num) gsum_chunk2
  have t2 : gsum 1089 24576 = 4976 := by
    have h := gsum_add 1089 8192 16384
    rw [show (16384 + 8192 : Nat) = 24576 from by norm_num,
      show (1089 + 2 * 16384 : Nat) = 33857 from by norm_num, t1, g2] at h
    exact h.trans (by norm_num)
  have g3 : gsum 50241 8192 = 1485 := chunk_to_gsum (by norm_num) (by norm_num) gsum_chunk3
  have t3 : gsum 1089 32768 = 6461 := by
    have h := gsum_add 1089 8192 24576
    rw [show (24576 + 8192 : Nat) = 32768 from by norm_num,
      show (1089 + 2 * 24576 : Nat) = 50241 from by norm_num, t2, g3] at h
    exact h.trans (by norm_num)
  have g4 : gsum 66625 8192 = 1465 := chunk_to_gsum (by norm_num) (by norm_num) gsum_chunk4
  have t4 : gsum 1089 40960 = 7926 := by
    have h := gsum_add 1089 8192 32768
    rw [show (32768 + 8192 : Nat) = 40960 from by norm_num,
      show (1089 + 2 * 32768 : Nat) = 66625 from by norm_num, t3, g4] at h
    exact h.trans (by norm_num)
  have g5 : gsum 83009 8192 = 1432 := chunk_to_gsum (by norm_num) (by norm_num) gsum_chunk5
  have t5 : gsum 1089 49152 = 9358 := by
    have h := gsum_add 1089 8192 40960
    rw [show (40960 + 8192 : Nat) = 49152 from by norm_num,
      show (1089 + 2 * 40960 : Nat) = 83009 from by norm_num, t4, g5] at h
    exact h.trans (by norm_num)
  have g6 : gsum 99393 8192 = 1399 := chunk_to_gsum (by norm_num) (by norm_num) gsum_chunk6
  have t6 : gsum 1089 57344 = 10757 := by
    have h := gsum_add 1089 8192 49152
    rw [show (49152 + 8192 : Nat) = 57344 from by norm_num,
      show (1089 + 2 * 49152 : Nat) = 99393 from by norm_num, t5, g6] at h
    exact h.trans (by norm_num)
  have g7 : gsum 115777 8192 = 1401 := chunk_to_gsum (by norm_num) (by norm_num) gsum_chunk7
  have t7 : gsum 1089 65536 = 12158 := by
    have h := gsum_add 1089 8192 57344
    rw [show (57344 + 8192 : Nat) = 65536 from by norm_num,
      show (1089 + 2 * 57344 : Nat) = 115777 from by norm_num, t6, g7] at h
    exact h.trans (by norm_num)
  have g8 : gsum 132161 8192 = 1379 := chunk_to_gsum (by norm_num) (by norm_num) gsum_chunk8
  have t8 : gsum 1089 73728 = 13537 := by
    have h := gsum_add 1089 8192 65536
    rw [show (65536 + 8192 : Nat) = 73728 from by norm_num,
      show (1089 + 2 * 65536 : Nat) = 132161 from by norm_num, t7, g8] at h
    exact h.trans (by norm_num)
  have g9 : gsum 148545 8192 = 1371 := chunk_to_gsum (by norm_num) (by norm_num) gsum_chunk9
  have t9 : gsum 1089 81920 = 14908 := by
    have h := gsum_add 1089 8192 73728
    rw [show (73728 + 8192 : Nat) = 81920 from by norm_num,
      show (1089 + 2 * 73728 : Nat) = 148545 from by norm_num, t8, g9] at h
    exact h.trans (by norm_num)
  have g10 : gsum 164929 8192 = 1351 := chunk_to_gsum (by norm_num) (by norm_num) gsum_chunk10
  have t10 : gsum 1089 90112 = 16259 := by
    have h := gsum_add 1089 8192 81920
    rw [show (81920 + 8192 : Nat) = 90112 from by norm_num,
      show (1089 + 2 * 81920 : Nat) = 164929 from by norm_num, t9, g10] at h
    exact h.trans (by norm_num)
  have g11 : gsum 181313 8192 = 1355 := chunk_to_gsum (by norm_num) (by norm_num) gsum_chunk11
  have t11 : gsum 1089 98304 = 17614 := by
    have h := gsum_add 1089 8192 90112
    rw [show (90112 + 8192 : Nat) = 98304 from by norm_num,
      show (1089 + 2 * 90112 : Nat) = 181313 from by norm_num, t10, g11] at h
    exact h.trans (by norm_num)
  have g12 : gsum 197697 8192 = 1342 := chunk_to_gsum (by norm_num) (by norm_num) gsum_chunk12
  have t12 : gsum 1089 106496 = 18956 := by
    have h := gsum_add 1089 8192 98304
    rw [show (98304 + 8192 : Nat) = 106496 from by norm_num,
      show (1089 + 2 * 98304 : Nat) = 197697 from by norm_num, t11, g12] at h
    exact h.trans (by norm_num)
  have g13 : gsum 214081 8192 = 1342 := chunk_to_gsum (by norm_num) (by norm_num) gsum_chunk13
  have t13 : gsum 1089 114688 = 20298 := by
    have h := gsum_add 1089 8192 106496
    rw [show (106496 + 8192 : Nat) = 114688 from by norm_num,
      show (1089 + 2 * 106496 : Nat) = 214081 from by norm_num, t12, g13] at h
    exact h.trans (by norm_num)
  have g14 : gsum 230465 8192 = 1305 := chunk_to_gsum (by norm_num) (by norm_num) gsum_chunk14
  have t14 : gsum 1089 122880 = 21603 := by
    have h := gsum_add 1089 8192 114688
    rw [show (114688 + 8192 : Nat) = 122880 from by norm_num,
      show (1089 + 2 * 114688 : Nat) = 230465 from by norm_num, t13, g14] at h
    exact h.trans (by norm_num)
  have g15 : gsum 246849 8192 = 1302 := chunk_to_gsum (by norm_num) (by norm_num) gsum_chunk15
  have t15 : gsum 1089 131072 = 22905 := by
    have h := gsum_add 1089 8192 122880
    rw [show (122880 + 8192 : Nat) = 131072 from by norm_num,
      show (1089 + 2 * 122880 : Nat) = 246849 from by norm_num, t14, g15] at h
    exact h.trans (by norm_num)
  have g16 : gsum 263233 8192 = 1319 := chunk_to_gsum (by norm_num) (by norm_num) gsum_chunk16
  have t16 : gsum 1089 139264 = 24224 := by
    have h := gsum_add 1089 8192 131072
    rw [show (131072 + 8192 : Nat) = 139264 from by norm_num,
      show (1089 + 2 * 131072 : Nat) = 263233 from by norm_num, t15, g16] at h
    exact h.trans (by norm_num)
  have g17 : gsum 279617 8192 = 1286 := chunk_to_gsum (by norm_num) (by norm_num) gsum_chunk17
  have t17 : gsum 1089 147456 = 25510 := by
    have h := gsum_add 1089 8192 139264
    rw [show (139264 + 8192 : Nat) = 147456 from by norm_num,
      show (1089 + 2 * 139264 : Nat) = 279617 from by norm_num, t16, g17] at h
    exact h.trans (by norm_num)
  have g18 : gsum 296001 8192 = 1294 := chunk_to_gsum (by norm_num) (by norm_num) gsum_chunk18
  have t18 : gsum 1089 155648 = 26804 := by
    have h := gsum_add 1089 8192 147456
    rw [show (147456 + 8192 : Nat) = 155648 from by norm_num,
      show (1089 + 2 * 147456 : Nat) = 296001 from by norm_num, t17, g18] at h
    exact h.trans (by norm_num)
  have g19 : gsum 312385 8192 = 1320 := chunk_to_gsum (by norm_num) (by norm_num) gsum_chunk19
  have t19 : gsum 1089 163840 = 28124 := by
    have h := gsum_add 1089 8192 155648
    rw [show (155648 + 8192 : Nat) = 163840 from by norm_num,
      show (1089 + 2 * 155648 : Nat) = 312385 from by norm_num, t18, g19] at h
    exact h.trans (by norm_num)
  have g20 : gsum 328769 8192 = 1287 := chunk_to_gsum (by norm_num) (by norm_num) gsum_chunk20
  have t20 : gsum 1089 172032 = 29411 := by
    have h := gsum_add 1089 8192 163840
    rw [show (163840 + 8192 : Nat) = 172032 from by norm_num,
      show (1089 + 2 * 163840 : Nat) = 328769 from by norm_num, t19, g20] at h
    exact h.trans (by norm_num)
  have g21 : gsum 345153 8192 = 1276 := chunk_to_gsum (by norm_num) (by norm_num) gsum_chunk21
  have t21 : gsum 1089 180224 = 30687 := by
    have h := gsum_add 1089 8192 172032
    rw [show (172032 + 8192 : Nat) = 180224 from by norm_num,
      show (1089 + 2 * 172032 : Nat) = 345153 from by norm_num, t20, g21] at h
    exact h.trans (by norm_num)
  have g22 : gsum 361537 8192 = 1269 := chunk_to_gsum (by norm_num) (by norm_num) gsum_chunk22
  have t22 : gsum 1089 188416 = 31956 := by
    have h := gsum_add 1089 8192 180224
    rw [show (180224 + 8192 : Nat) = 188416 from by norm_num,
      show (1089 + 2 * 180224 : Nat) = 361537 from by norm_num, t21, g22] at h
    exact h.trans (by norm_num)
  have g23 : gsum 377921 8192 = 1284 := chunk_to_gsum (by norm_num) (by norm_num) gsum_chunk23
  have t23 : gsum 1089 196608 = 33240 := by
    have h := gsum_add 1089 8192 188416
    rw [show (188416 + 8192 : Nat) = 196608 from by norm_num,
      show (1089 + 2 * 188416 : Nat) = 377921 from by norm_num, t22, g23] at h
    exact h.trans (by norm_num)
  have g24 : gsum 394305 8192 = 1246 := chunk_to_gsum (by norm_num) (by norm_num) gsum_chunk24
  have t24 : gsum 1089 204800 = 34486 := by
    have h := gsum_add 1089 8192 196608
    rw [show (196608 + 8192 : Nat) = 204800 from by norm_num,
      show (1089 + 2 * 196608 : Nat) = 394305 from by norm_num, t23, g24] at h
    exact h.trans (by norm_num)
  have g25 : gsum 410689 8192 = 1263 := chunk_to_gsum (by norm_num) (by norm_num) gsum_chunk25
  have t25 : gsum 1089 212992 = 35749 := by
    have h := gsum_add 1089 8192 204800
    rw [show (204800 + 8192 : Nat) = 212992 from by norm_num,
      show (1089 + 2 * 204800 : Nat) = 410689 from by norm_num, t24, g25] at h
    exact h.trans (by norm_num)
  have g26 : gsum 427073 8192 = 1291 := chunk_to_gsum (by norm_num) (by norm_num) gsum_chunk26
  have t26 : gsum 1089 221184 = 37040 := by
    have h := gsum_add 1089 8192 212992
    rw [show (212992 + 8192 : Nat) = 221184 from by norm_num,
      show (1089 + 2 * 212992 : Nat) = 427073 from by norm_num, t25, g26] at h
    exact h.trans (by norm_num)
  have g27 : gsum 443457 8192 = 1229 := chunk_to_gsum (by norm_num) (by norm_num) gsum_chunk27
  have t27 : gsum 1089 229376 = 38269 := by
    have h := gsum_add 1089 8192 221184
    rw [show (221184 + 8192 : Nat) = 229376 from by norm_num,
      show (1089 + 2 * 221184 : Nat) = 443457 from by norm_num, t26, g27] at h
    exact h.trans (by norm_num)
  have g28 : gsum 459841 8192 = 1273 := chunk_to_gsum (by norm_num) (by norm_num) gsum_chunk28
  have t28 : gsum 1089 237568 = 39542 := by
    have h := gsum_add 1089 8192 229376
    rw [show (229376 + 8192 : Nat) = 237568 from by norm_num,
      show (1089 + 2 * 229376 : Nat) = 459841 from by norm_num, t27, g28] at h
    exact h.trans (by norm_num)
  have g29 : gsum 476225 8192 = 1236 := chunk_to_gsum (by norm_num) (by norm_num) gsum_chunk29
  have t29 : gsum 1089 245760 = 40778 := by
    have h := gsum_add 1089 8192 237568
    rw [show (237568 + 8192 : Nat) = 245760 from by norm_num,
      show (1089 + 2 * 237568 : Nat) = 476225 from by norm_num, t28, g29] at h
    exact h.trans (by norm_num)
  have g30 : gsum 492609 8192 = 1257 := chunk_to_gsum (by norm_num) (by norm_num) gsum_chunk30
  have t30 : gsum 1089 253952 = 42035 := by
    have h := gsum_add 1089 8192 245760
    rw [show (245760 + 8192 : Nat) = 253952 from by norm_num,
      show (1089 + 2 * 245760 : Nat) = 492609 from by norm_num, t29, g30] at h
    exact h.trans (by norm_num)
  have g31 : gsum 508993 8192 = 1253 := chunk_to_gsum (by norm_num) (by norm_num) gsum_chunk31
  have t31 : gsum 1089 262144 = 43288 := by
    have h := gsum_add 1089 8192 253952
    rw [show (253952 + 8192 : Nat) = 262144 from by norm_num,
      show (1089 + 2 * 253952 : Nat) = 508993 from by norm_num, t30, g31] at h
    exact h.trans (by norm_num)
  have g32 : gsum 525377 8192 = 1235 := chunk_to_gsum (by norm_num) (by norm_num) gsum_chunk32
  have t32 : gsum 1089 270336 = 44523 := by
    have h := gsum_add 1089 8192 262144
    rw [show (262144 + 8192 : Nat) = 270336 from by norm_num,
      show (1089 + 2 * 262144 : Nat) = 525377 from by norm_num, t31, g32] at h
    exact h.trans (by norm_num)
  have g33 : gsum 541761 8192 = 1228 := chunk_to_gsum (by norm_num) (by norm_num) gsum_chunk33
  have t33 : gsum 1089 278528 = 45751 := by
    have h := gsum_add 1089 8192 270336
    rw [show (270336 + 8192 : Nat) = 278528 from by norm_num,
      show (1089 + 2 * 270336 : Nat) = 541761 from by norm_num, t32, g33] at h
    exact h.trans (by norm_num)
  have g34 : gsum 558145 8192 = 1238 := chunk_to_gsum (by norm_num) (by norm_num) gsum_chunk34
  have t34 : gsum 1089 286720 = 46989 := by
    have h := gsum_add 1089 8192 278528
    rw [show (278528 + 8192 : Nat) = 286720 from by norm_num,
      show (1089 + 2 * 278528 : Nat) = 558145 from by norm_num, t33, g34] at h
    exact h.trans (by norm_num)
  have g35 : gsum 574529 8192 = 1245 := chunk_to_gsum (by norm_num) (by norm_num) gsum_chunk35
  have t35 : gsum 1089 294912 = 48234 := by
    have h := gsum_add 1089 8192 286720
    rw [show (286720 + 8192 : Nat) = 294912 from by norm_num,
      show (1089 + 2 * 286720 : Nat) = 574529 from by norm_num, t34, g35] at h
    exact h.trans (by norm_num)
  have g36 : gsum 590913 8192 = 1237 := chunk_to_gsum (by norm_num) (by norm_num) gsum_chunk36
  have t36 : gsum 1089 303104 = 49471 := by
    have h := gsum_add 1089 8192 294912
    rw [show (294912 + 8192 : Nat) = 303104 from by norm_num,
      show (1089 + 2 * 294912 : Nat) = 590913 from by norm_num, t35, g36] at h
    exact h.trans (by norm_num)
  have g37 : gsum 607297 8192 = 1228 := chunk_to_gsum (by norm_num) (by norm_num) gsum_chunk37
  have t37 : gsum 1089 311296 = 50699 := by
    have h := gsum_add 1089 8192 303104
    rw [show (303104 + 8192 : Nat) = 311296 from by norm_num,
      show (1089 + 2 * 303104 : Nat) = 607297 from by norm_num, t36, g37] at h
    exact h.trans (by norm_num)
  have g38 : gsum 623681 8192 = 1202 := chunk_to_gsum (by norm_num) (by norm_num) gsum_chunk38
  have t38 : gsum 1089 319488 = 51901 := by
    have h := gsum_add 1089 8192 311296
    rw [show (311296 + 8192 : Nat) = 319488 from by norm_num,
      show (1089 + 2 * 311296 : Nat) = 623681 from by norm_num, t37, g38] at h
    exact h.trans (by norm_num)
  have g39 : gsum 640065 8192 = 1220 := chunk_to_gsum (by norm_num) (by norm_num) gsum_chunk39
  have t39 : gsum 1089 327680 = 53121 := by
    have h := gsum_add 1089 8192 319488
    rw [show (319488 + 8192 : Nat) = 327680 from by norm_num,
      show (1089 + 2 * 319488 : Nat) = 640065 from by norm_num, t38, g39] at h
    exact h.trans (by norm_num)
  have g40 : gsum 656449 8192 = 1221 := chunk_to_gsum (by norm_num) (by norm_num) gsum_chunk40
  have t40 : gsum 1089 335872 = 54342 := by
    have h := gsum_add 1089 8192 327680
    rw [show (327680 + 8192 : Nat) = 335872 from by norm_num,
      show (1089 + 2 * 327680 : Nat) = 656449 from by norm_num, t39, g40] at h
    exact h.trans (by norm_num)
  have g41 : gsum 672833 8192 = 1228 := chunk_to_gsum (by norm_num) (by norm_num) gsum_chunk41
  have t41 : gsum 1089 344064 = 55570 := by
    have h := gsum_add 1089 8192 335872
    rw [show (335872 + 8192 : Nat) = 344064 from by norm_num,
      show (1089 + 2 * 335872 : Nat) = 672833 from by norm_num, t40, g41] at h
    exact h.trans (by norm_num)
  have g42 : gsum 689217 8192 = 1218 := chunk_to_gsum (by norm_num) (by norm_num) gsum_chunk42
  have t42 : gsum 1089 352256 = 56788 := by
    have h := gsum_add 1089 8192 344064
    rw [show (344064 + 8192 : Nat) = 352256 from by norm_num,
      show (1089 + 2 * 344064 : Nat) = 689217 from by norm_num, t41, g42] at h
    exact h.trans (by norm_num)
  have g43 : gsum 705601 8192 = 1213 := chunk_to_gsum (by norm_num) (by norm_num) gsum_chunk43
  have t43 : gsum 1089 360448 = 58001 := by
    have h := gsum_add 1089 8192 352256
    rw [show (352256 + 8192 : Nat) = 360448 from by norm_num,
      show (1089 + 2 * 352256 : Nat) = 705601 from by norm_num, t42, g43] at h
    exact h.trans (by norm_num)
  have g44 : gsum 721985 8192 = 1222 := chunk_to_gsum (by norm_num) (by norm_num) gsum_chunk44
  have t44 : gsum 1089 368640 = 59223 := by
    have h := gsum_add 1089 8192 360448
    rw [show (360448 + 8192 : Nat) = 368640 from by norm_num,
      show (1089 + 2 * 360448 : Nat) = 721985 from by norm_num, t43, g44] at h
    exact h.trans (by norm_num)
  have g45 : gsum 738369 8192 = 1194 := chunk_to_gsum (by norm_num) (by norm_num) gsum_chunk45
  have t45 : gsum 1089 376832 = 60417 := by
    have h := gsum_add 1089 8192 368640
    rw [show (368640 + 8192 : Nat) = 376832 from by norm_num,
      show (1089 + 2 * 368640 : Nat) = 738369 from by norm_num, t44, g45] at h
    exact h.trans (by norm_num)
  have g46 : gsum 754753 8192 = 1223 := chunk_to_gsum (by norm_num) (by norm_num) gsum_chunk46
  have t46 : gsum 1089 385024 = 61640 := by
    have h := gsum_add 1089 8192 376832
    rw [show (376832 + 8192 : Nat) = 385024 from by norm_num,
      show (1089 + 2 * 376832 : Nat) = 754753 from by norm_num, t45, g46] at h
    exact h.trans (by norm_num)
  have g47 : gsum 771137 8192 = 1202 := chunk_to_gsum (by norm_num) (by norm_num) gsum_chunk47
  have t47 : gsum 1089 393216 = 62842 := by
    have h := gsum_add 1089 8192 385024
    rw [show (385024 + 8192 : Nat) = 393216 from by norm_num,
      show (1089 + 2 * 385024 : Nat) = 771137 from by norm_num, t46, g47] at h
    exact h.trans (by norm_num)
  have g48 : gsum 787521 8192 = 1210 := chunk_to_gsum (by norm_num) (by norm_num) gsum_chunk48
  have t48 : gsum 1089 401408 = 64052 := by
    have h := gsum_add 1089 8192 393216
    rw [show (393216 + 8192 : Nat) = 401408 from by norm_num,
      show (1089 + 2 * 393216 : Nat) = 787521 from by norm_num, t47, g48] at h
    exact h.trans (by norm_num)
  have g49 : gsum 803905 8192 = 1205 := chunk_to_gsum (by norm_num) (by norm_num) gsum_chunk49
  have t49 : gsum 1089 409600 = 65257 := by
    have h := gsum_add 1089 8192 401408
    rw [show (401408 + 8192 : Nat) = 409600 from by norm_num,
      show (1089 + 2 * 401408 : Nat) = 803905 from by norm_num, t48, g49] at h
    exact h.trans (by norm_num)
  have g50 : gsum 820289 8192 = 1213 := chunk_to_gsum (by norm_num) (by norm_num) gsum_chunk50
  have t50 : gsum 1089 417792 = 66470 := by
    have h := gsum_add 1089 8192 409600
    rw [show (409600 + 8192 : Nat) = 417792 from by norm_num,
      show (1089 + 2 * 409600 : Nat) = 820289 from by norm_num, t49, g50] at h
    exact h.trans (by norm_num)
  have g51 : gsum 836673 8192 = 1191 := chunk_to_gsum (by norm_num) (by norm_num) gsum_chunk51
  have t51 : gsum 1089 425984 = 67661 := by
    have h := gsum_add 1089 8192 417792
    rw [show (417792 + 8192 : Nat) = 425984 from by norm_num,
      show (1089 + 2 * 417792 : Nat) = 836673 from by norm_num, t50, g51] at h
    exact h.trans (by norm_num)
  have g52 : gsum 853057 8192 = 1213 := chunk_to_gsum (by norm_num) (by norm_num) gsum_chunk52
  have t52 : gsum 1089 434176 = 68874 := by
    have h := gsum_add 1089 8192 425984
    rw [show (425984 + 8192 : Nat) = 434176 from by norm_num,
      show (1089 + 2 * 425984 : Nat) = 853057 from by norm_num, t51, g52] at h
    exact h.trans (by norm_num)
  have g53 : gsum 869441 8192 = 1191 := chunk_to_gsum (by norm_num) (by norm_num) gsum_chunk53
  have t53 : gsum 1089 442368 = 70065 := by
    have h := gsum_add 1089 8192 434176
    rw [show (434176 + 8192 : Nat) = 442368 from by norm_num,
      show (1089 + 2 * 434176 : Nat) = 869441 from by norm_num, t52, g53] at h
    exact h.trans (by norm_num)
  have g54 : gsum 885825 8192 = 1189 := chunk_to_gsum (by norm_num) (by norm_num) gsum_chunk54
  have t54 : gsum 1089 450560 = 71254 := by
    have h := gsum_add 1089 8192 442368
    rw [show (442368 + 8192 : Nat) = 450560 from by norm_num,
      show (1089 + 2 * 442368 : Nat) = 885825 from by norm_num, t53, g54] at h
    exact h.trans (by norm_num)
  have g55 : gsum 902209 8192 = 1199 := chunk_to_gsum (by norm_num) (by norm_num) gsum_chunk55
  have t55 : gsum 1089 458752 = 72453 := by
    have h := gsum_add 1089 8192 450560
    rw [show (450560 + 8192 : Nat) = 458752 from by norm_num,
      show (1089 + 2 * 450560 : Nat) = 902209 from by norm_num, t54, g55] at h
    exact h.trans (by norm_num)
  have g56 : gsum 918593 8192 = 1201 := chunk_to_gsum (by norm_num) (by norm_num) gsum_chunk56
  have t56 : gsum 1089 466944 = 73654 := by
    have h := gsum_add 1089 8192 458752
    rw [show (458752 + 8192 : Nat) = 466944 from by norm_num,
      show (1089 + 2 * 458752 : Nat) = 918593 from by norm_num, t55, g56] at h
    exact h.trans (by norm_num)
  have g57 : gsum 934977 8192 = 1175 := chunk_to_gsum (by norm_num) (by norm_num) gsum_chunk57
  have t57 : gsum 1089 475136 = 74829 := by
    have h := gsum_add 1089 8192 466944
    rw [show (466944 + 8192 : Nat) = 475136 from by norm_num,
      show (1089 + 2 * 466944 : Nat) = 934977 from by norm_num, t56, g57] at h
    exact h.trans (by norm_num)
  have g58 : gsum 951361 8192 = 1171 := chunk_to_gsum (by norm_num) (by norm_num) gsum_chunk58
  have t58 : gsum 1089 483328 = 76000 := by
    have h := gsum_add 1089 8192 475136
    rw [show (475136 + 8192 : Nat) = 483328 from by norm_num,
      show (1089 + 2 * 475136 : Nat) = 951361 from by norm_num, t57, g58] at h
    exact h.trans (by norm_num)
  have g59 : gsum 967745 8192 = 1178 := chunk_to_gsum (by norm_num) (by norm_num) gsum_chunk59
  have t59 : gsum 1089 491520 = 77178 := by
    have h := gsum_add 1089 8192 483328
    rw [show (483328 + 8192 : Nat) = 491520 from by norm_num,
      show (1089 + 2 * 483328 : Nat) = 967745 from by norm_num, t58, g59] at h
    exact h.trans (by norm_num)
  have g60 : gsum 984129 8192 = 1179 := chunk_to_gsum (by norm_num) (by norm_num) gsum_chunk60
  have t60 : gsum 1089 499712 = 78357 := by
    have h := gsum_add 1089 8192 491520
    rw [show (491520 + 8192 : Nat) = 499712 from by norm_num,
      show (1089 + 2 * 491520 : Nat) = 984129 from by norm_num, t59, g60] at h
    exact h.trans (by norm_num)
  have g61 : gsum 1000513 8192 = 1208 := chunk_to_gsum (by norm_num) (by norm_num) gsum_chunk61
  have t61 : gsum 1089 507904 = 79565 := by
    have h := gsum_add 1089 8192 499712
    rw [show (499712 + 8192 : Nat) = 507904 from by norm_num,
      show (1089 + 2 * 499712 : Nat) = 1000513 from by norm_num, t60, g61] at h
    exact h.trans (by norm_num)
  have g62 : gsum 1016897 8192 = 1180 := chunk_to_gsum (by norm_num) (by norm_num) gsum_chunk62
  have t62 : gsum 1089 516096 = 80745 := by
    have h := gsum_add 1089 8192 507904
    rw [show (507904 + 8192 : Nat) = 516096 from by norm_num,
      show (1089 + 2 * 507904 : Nat) = 1016897 from by norm_num, t61, g62] at h
    exact h.trans (by norm_num)
  have g63 : gsum 1033281 8192 = 1181 := chunk_to_gsum (by norm_num) (by norm_num) gsum_chunk63
  have t63 : gsum 1089 524288 = 81926 := by
    have h := gsum_add 1089 8192 516096
    rw [show (516096 + 8192 : Nat) = 524288 from by norm_num,
      show (1089 + 2 * 516096 : Nat) = 1033281 from by norm_num, t62, g63] at h
    exact h.trans (by norm_num)
  have g64 : gsum 1049665 8192 = 1152 := chunk_to_gsum (by norm_num) (by norm_num) gsum_chunk64
  have t64 : gsum 1089 532480 = 83078 := by
    have h := gsum_add 1089 8192 524288
    rw [show (524288 + 8192 : Nat) = 532480 from by norm_num,
      show (1089 + 2 * 524288 : Nat) = 1049665 from by norm_num, t63, g64] at h
    exact h.trans (by norm_num)
  have g65 : gsum 1066049 8192 = 1197 := chunk_to_gsum (by norm_num) (by norm_num) gsum_chunk65
  have t65 : gsum 1089 540672 = 84275 := by
    have h := gsum_add 1089 8192 532480
    rw [show (532480 + 8192 : Nat) = 540672 from by norm_num,
      show (1089 + 2 * 532480 : Nat) = 1066049 from by norm_num, t64, g65] at h
    exact h.trans (by norm_num)
  have g66 : gsum 1082433 8192 = 1174 := chunk_to_gsum (by norm_num) (by norm_num) gsum_chunk66
  have t66 : gsum 1089 548864 = 85449 := by
    have h := gsum_add 1089 8192 540672
    rw [show (540672 + 8192 : Nat) = 548864 from by norm_num,
      show (1089 + 2 * 540672 : Nat) = 1082433 from by norm_num, t65, g66] at h
    exact h.trans (by norm_num)
  have g67 : gsum 1098817 8192 = 1202 := chunk_to_gsum (by norm_num) (by norm_num) gsum_chunk67
  have t67 : gsum 1089 557056 = 86651 := by
    have h := gsum_add 1089 8192 548864
    rw [show (548864 + 8192 : Nat) = 557056 from by norm_num,
      show (1089 + 2 * 548864 : Nat) = 1098817 from by norm_num, t66, g67] at h
    exact h.trans (by norm_num)
  have g68 : gsum 1115201 8192 = 1167 := chunk_to_gsum (by norm_num) (by norm_num) gsum_chunk68
  have t68 : gsum 1089 565248 = 87818 := by
    have h := gsum_add 1089 8192 557056
    rw [show (557056 + 8192 : Nat) = 565248 from by norm_num,
      show (1089 + 2 * 557056 : Nat) = 1115201 from by norm_num, t67, g68] at h
    exact h.trans (by norm_num)
  have g69 : gsum 1131585 8192 = 1162 := chunk_to_gsum (by norm_num) (by norm_num) gsum_chunk69
  have t69 : gsum 1089 573440 = 88980 := by
    have h := gsum_add 1089 8192 565248
    rw [show (565248 + 8192 : Nat) = 573440 from by norm_num,
      show (1089 + 2 * 565248 : Nat) = 1131585 from by norm_num, t68, g69] at h
    exact h.trans (by norm_num)
  have g70 : gsum 1147969 5776 = 838 := chunk_to_gsum (by norm_num) (by norm_num) gsum_chunk70
  have t70 : gsum 1089 579216 = 89818 := by
    have h := gsum_add 1089 5776 573440
    rw [show (573440 + 5776 : Nat) = 579216 from by norm_num,
      show (1089 + 2 * 573440 : Nat) = 1147969 from by norm_num, t69, g70] at h
    exact h.trans (by norm_num)
  exact t70

theorem gsum_tail : gsum 1159521 5 = 1 := by decide

theorem gcd_1159531 : Nat.gcd 1159531 Pconst = 1 := by decide

theorem count_1159531 : Nat.count Nat.Prime 1159531 = 90000 := by
  have ha : (579216 + 5 : Nat) = 579221 := by norm_num
  have h3 : gsum 1089 579221 = gsum 1089 579216 + gsum (1089 + 2 * 579216) 5 := by
    rw [← ha, gsum_add]
  have h5 : (1089 + 2 * 579216 : Nat) = 1159521 := by norm_num
  have h2 : gsum 1089 579221 = (candList 1089 579221).countP (fun n => decide n.Prime) :=
    gsum_eq_countP 1089 (by omega) (by omega) 579221 (by norm_num)
  have h1 : Nat.count Nat.Prime (1089 + 2 * 579221) =
      Nat.count Nat.Prime 1089 + (candList 1089 579221).countP (fun n => decide n.Prime) :=
    count_add_countP 1089 (by omega) (by omega) 579221
  have hb : (1089 + 2 * 579221 : Nat) = 1159531 := by norm_num
  rw [hb] at h1
  rw [h1, count_1089, ← h2, h3, h5, gsum_total, gsum_tail]

theorem prime_1159531 : Nat.Prime 1159531 :=
  (gcd_prime_test (by norm_num) (by norm_num) (by norm_num) Pconst_eq).mp gcd_1159531

theorem nth_prime_90000 : Nat.nth Nat.Prime 90000 = 1159531 := by
  have h := Nat.nth_count (p := Nat.Prime) prime_1159531
  rw [count_1159531] at h
  exact h

end Primes

namespace Primes

open LazySeq

/-- Claim C1: the sieve seeded with `[2, 3]` enumerates exactly the
primes in increasing order: every value of the `primes` sequence is
prime, consecutive values strictly increase, every prime appears, `at`
returns these values; in particular `primes[90000] = 1159531` and
`primes.index(1159531) = 90000`. -/
theorem claim_C1_primes :
    (∀ i, (fullVal primesInit i).Prime) ∧
    (∀ i, fullVal primesInit i < fullVal primesInit (i + 1)) ∧
    (∀ q, q.Prime → ∃ i, fullVal primesInit i = q) ∧
    (∀ i, getitem_int primesInit (Int.ofNat i) = .ok (fullVal primesInit i, forceTo primesInit i)) ∧
    fullVal primesInit 90000 = 1159531 ∧
    (lss_index primesInit 1159531 "Primes" 89999).1 = .ok 90000 := by
  have hval : ∀ i, fullVal primesInit i = Nat.nth Nat.Prime i := fullVal_primesInit
  refine ⟨?_, ?_, ?_, ?_, ?_, ?_⟩
  · intro i
    rw [hval]
    exact nth_prime_prime i
  · intro i
    rw [hval, hval]
    exact nth_prime_lt_nth_prime.mpr (by omega)
  · intro q hq
    refine ⟨Nat.count Nat.Prime q, ?_⟩
    rw [hval]
    exact Nat.nth_count hq
  · exact fun i => getitem_int_nat primesInit i
  · rw [hval, nth_prime_90000]
  · have hm : (1159531 : Nat) ≤ fullVal primesInit 90000 := by
      rw [hval, nth_prime_90000]
    have hocc : ∃ j0, fullVal primesInit j0 = 1159531 :=
      ⟨90000, by rw [hval, nth_prime_90000]⟩
    have h := (lss_index_spec primesInit 1159531 89999 90000 "Primes"
      fullVal_primesInit_mono hm (by decide)).1 hocc
    have hi : (insertpos primesInit 1159531 89999).1 = 90000 := by
      have h2 := h.2.1
      rw [hval] at h2
      have h3 : Nat.nth Nat.Prime (insertpos primesInit 1159531 89999).1 =
          Nat.nth Nat.Prime 90000 := by
        rw [h2, nth_prime_90000]
      exact (Nat.nth_strictMono Nat.infinite_setOf_prime).injective h3
    rw [h.1, hi]

end Primes

/-! Embedding of potencias.py: `join`, `flat`, `mkiter` and the
`potencias` object. -/

namespace Potencias

open LazySeq Primes

/-- The pointer pair (elements consumed from `s1`, from `s2`) of
`join(s1, s2)` after `n` values have been yielded: on `x <= y` the `x`
side is yielded and advanced, else the `y` side. -/
def joinPtr (f g : Nat → Nat) : Nat → Nat × Nat
  | 0 => (0, 0)
  | n+1 =>
    if f (joinPtr f g n).1 ≤ g (joinPtr f g n).2
    then ((joinPtr f g n).1 + 1, (joinPtr f g n).2)
    else ((joinPtr f g n).1, (joinPtr f g n).2 + 1)

/-- Element `n` of `join(s1, s2)`. -/
def joinS (f g : Nat → Nat) (n : Nat) : Nat :=
  if f (joinPtr f g n).1 ≤ g (joinPtr f g n).2
  then f (joinPtr f g n).1 else g (joinPtr f g n).2

/-- `flat(it)` on the family `F k, F (k+1), ...`, fuel-indexed:
`s1 = next(it); yield next(s1); yield from join(s1, flat(it))`.
When the fuel runs out the remaining recursion is approximated by the
current stream alone; the theorems quantify over sufficient fuel. -/
def flatF (F : Nat → Nat → Nat) : Nat → Nat → Nat → Nat
  | 0, k => F k
  | d+1, k => fun n =>
    match n with
    | 0 => F k 0
    | n+1 => joinS (fun i => F k (i + 1)) (flatF F d (k + 1)) n

/-- `mkiter(k)`: `p ** 2 ** k` for `p` iterating over the shared `primes`
object. -/
def mkiterS (k : Nat) : Nat → Nat := fun i => (fullVal primesInit i) ^ 2 ^ k

/-- The producer of the `potencias` object, fuel-indexed:
`flat(mkiter(k) for k in count())`. -/
def potenciasStream (d : Nat) : Nat → Nat := flatF mkiterS d 0

/-- `potencias = LazySortedSequence(flat(mkiter(k) for k in count()))`. -/
def potenciasInit (d : Nat) : LazySeq Nat := ⟨[], potenciasStream d, 0⟩

/-- The Fermi-Dirac numbers (specification side): `p ^ (2 ^ k)` for `p`
prime. -/
def FD (m : Nat) : Prop := ∃ p k, Nat.Prime p ∧ m = p ^ 2 ^ k

theorem joinPtr_add (f g : Nat → Nat) : ∀ n, (joinPtr f g n).1 + (joinPtr f g n).2 = n := by
  intro n
  induction n with
  | zero => rfl
  | succ n ih =>
    rw [joinPtr]
    split
    · simp only
      omega
    · simp only
      omega

theorem joinPtr_succ_cases (f g : Nat → Nat) (n : Nat) :
    (f (joinPtr f g n).1 ≤ g (joinPtr f g n).2 ∧
      joinPtr f g (n + 1) = ((joinPtr f g n).1 + 1, (joinPtr f g n).2)) ∨
    (¬ f (joinPtr f g n).1 ≤ g (joinPtr f g n).2 ∧
      joinPtr f g (n + 1) = ((joinPtr f g n).1, (joinPtr f g n).2 + 1)) := by
  by_cases h : f (joinPtr f g n).1 ≤ g (joinPtr f g n).2
  · exact Or.inl ⟨h, by rw [joinPtr, if_pos h]⟩
  · exact Or.inr ⟨h, by rw [joinPtr, if_neg h]⟩

/-- The first `n` outputs of `join` are exactly the consumed prefixes of
the two inputs. -/
theorem join_outputs (f g : Nat → Nat) : ∀ n x,
    (∃ m, m < n ∧ joinS f g m = x) ↔
      ((∃ a, a < (joinPtr f g n).1 ∧ f a = x) ∨
       (∃ b, b < (joinPtr f g n).2 ∧ g b = x)) := by
  intro n
  induction n with
  | zero =>
    intro x
    constructor
    · rintro ⟨m, hm, _⟩
      omega
    · rintro (⟨a, ha, _⟩ | ⟨b, hb, _⟩)
      · simp [joinPtr] at ha
      · simp [joinPtr] at hb
  | succ n ih =>
    intro x
    rcases joinPtr_succ_cases f g n with ⟨hc, heq⟩ | ⟨hc, heq⟩
    · have hval : joinS f g n = f (joinPtr f g n).1 := by rw [joinS, if_pos hc]
      rw [heq]
      simp only
      constructor
      · rintro ⟨m, hm, rfl⟩
        rcases Nat.lt_or_ge m n with h | h
        · rcases (ih _).mp ⟨m, h, rfl⟩ with ⟨a, ha, hfa⟩ | hb
          · exact Or.inl ⟨a, by omega, hfa⟩
          · exact Or.inr hb
        · have hmn : m = n := by omega
          exact Or.inl ⟨(joinPtr f g n).1, by omega, by rw [← hval, hmn]⟩
      · rintro (⟨a, ha, hfa⟩ | ⟨b, hb, hgb⟩)
        · rcases Nat.lt_or_ge a (joinPtr f g n).1 with h | h
          · obtain ⟨m, hm, hv⟩ := (ih x).mpr (Or.inl ⟨a, h, hfa⟩)
            exact ⟨m, by omega, hv⟩
          · have ha2 : a = (joinPtr f g n).1 := by omega
            subst ha2
            exact ⟨n, by omega, by rw [hval, hfa]⟩
        · obtain ⟨m, hm, hv⟩ := (ih x).mpr (Or.inr ⟨b, hb, hgb⟩)
          exact ⟨m, by omega, hv⟩
    · have hval : joinS f g n = g (joinPtr f g n).2 := by rw [joinS, if_neg hc]
      rw [heq]
      simp only
      constructor
      · rintro ⟨m, hm, rfl⟩
        rcases Nat.lt_or_ge m n with h | h
        · rcases (ih _).mp ⟨m, h, rfl⟩ with ha | ⟨b, hb, hgb⟩
          · exact Or.inl ha
          · exact Or.inr ⟨b, by omega, hgb⟩
        · have hmn : m = n := by omega
          exact Or.inr ⟨(joinPtr f g n).2, by omega, by rw [← hval, hmn]⟩
      · rintro (⟨a, ha, hfa⟩ | ⟨b, hb, hgb⟩)
        · obtain ⟨m, hm, hv⟩ := (ih x).mpr (Or.inl ⟨a, ha, hfa⟩)
          exact ⟨m, by omega, hv⟩
        · rcases Nat.lt_or_ge b (joinPtr f g n).2 with h | h
          · obtain ⟨m, hm, hv⟩ := (ih x).mpr (Or.inr ⟨b, h, hgb⟩)
            exact ⟨m, by omega, hv⟩
          · have hb2 : b = (joinPtr f g n).2 := by omega
            subst hb2
            exact ⟨n, by omega, by rw [hval, hgb]⟩

theorem joinS_strictMono {f g : Nat → Nat} (hf : StrictMono f) (hg : StrictMono g)
    (hdisj : ∀ i j, f i ≠ g j) : StrictMono (joinS f g) := by
  apply strictMono_nat_of_lt_succ
  intro n
  rcases joinPtr_succ_cases f g n with ⟨hc, heq⟩ | ⟨hc, heq⟩
  · rw [joinS, joinS, if_pos hc, heq]
    simp only
    by_cases h2 : f ((joinPtr f g n).1 + 1) ≤ g (joinPtr f g n).2
    · rw [if_pos h2]
      exact hf (by omega)
    · rw [if_neg h2]
      exact Nat.lt_of_le_of_ne hc (hdisj _ _)
  · rw [joinS, joinS, if_neg hc, heq]
    simp only
    have hgf : g (joinPtr f g n).2 < f (joinPtr f g n).1 := by omega
    by_cases h2 : f (joinPtr f g n).1 ≤ g ((joinPtr f g n).2 + 1)
    · rw [if_pos h2]
      omega
    · rw [if_neg h2]
      exact hg (by omega)

theorem joinS_mem (f g : Nat → Nat) (n : Nat) :
    (∃ i, joinS f g n = f i) ∨ (∃ j, joinS f g n = g j) := by
  rw [joinS]
  split
  · exact Or.inl ⟨(joinPtr f g n).1, rfl⟩
  · exact Or.inr ⟨(joinPtr f g n).2, rfl⟩

end Potencias

namespace Potencias

open LazySeq Primes

theorem joinPtr_fst_unbounded {f g : Nat → Nat} (hf : StrictMono f) (hg : StrictMono g) :
    ∀ a, ∃ n, a ≤ (joinPtr f g n).1 := by
  intro a
  by_contra hc
  push_neg at hc
  have hstep : ∀ m, f a + a ≤ m → (joinPtr f g (m + 1)).1 = (joinPtr f g m).1 + 1 := by
    intro m hm
    have hadd := joinPtr_add f g m
    have hia := hc m
    have hj : f a ≤ (joinPtr f g m).2 := by omega
    have hga : f a ≤ g (joinPtr f g m).2 := le_trans hj hg.le_apply
    have hcond : f (joinPtr f g m).1 ≤ g (joinPtr f g m).2 :=
      le_trans (le_of_lt (hf hia)) hga
    rw [joinPtr, if_pos hcond]
  have hgrow : ∀ k, (joinPtr f g (f a + a)).1 + k ≤ (joinPtr f g (f a + a + k)).1 := by
    intro k
    induction k with
    | zero => simp
    | succ k ih =>
      have hs := hstep (f a + a + k) (by omega)
      have hidx : f a + a + (k + 1) = f a + a + k + 1 := by omega
      rw [hidx]
      omega
  have h1 := hgrow a
  have h2 := hc (f a + a + a)
  omega

theorem joinPtr_snd_unbounded {f g : Nat → Nat} (hf : StrictMono f) (hg : StrictMono g) :
    ∀ b, ∃ n, b ≤ (joinPtr f g n).2 := by
  intro b
  by_contra hc
  push_neg at hc
  have hstep : ∀ m, g b + b ≤ m → (joinPtr f g (m + 1)).2 = (joinPtr f g m).2 + 1 := by
    intro m hm
    have hadd := joinPtr_add f g m
    have hjb := hc m
    have hi : g b ≤ (joinPtr f g m).1 := by omega
    have hgj : g (joinPtr f g m).2 < g b := hg hjb
    have hfi : g b ≤ f (joinPtr f g m).1 := le_trans hi hf.le_apply
    have hcond : ¬ f (joinPtr f g m).1 ≤ g (joinPtr f g m).2 := by omega
    rw [joinPtr, if_neg hcond]
  have hgrow : ∀ k, (joinPtr f g (g b + b)).2 + k ≤ (joinPtr f g (g b + b + k)).2 := by
    intro k
    induction k with
    | zero => simp
    | succ k ih =>
      have hs := hstep (g b + b + k) (by omega)
      have hidx : g b + b + (k + 1) = g b + b + k + 1 := by omega
      rw [hidx]
      omega
  have h1 := hgrow b
  have h2 := hc (g b + b + b)
  omega

theorem joinS_complete_left {f g : Nat → Nat} (hf : StrictMono f) (hg : StrictMono g)
    (a : Nat) : ∃ m, joinS f g m = f a := by
  obtain ⟨n, hn⟩ := joinPtr_fst_unbounded hf hg (a + 1)
  obtain ⟨m, _, hv⟩ := (join_outputs f g n (f a)).mpr (Or.inl ⟨a, by omega, rfl⟩)
  exact ⟨m, hv⟩

theorem joinS_complete_right {f g : Nat → Nat} (hf : StrictMono f) (hg : StrictMono g)
    (b : Nat) : ∃ m, joinS f g m = g b := by
  obtain ⟨n, hn⟩ := joinPtr_snd_unbounded hf hg (b + 1)
  obtain ⟨m, _, hv⟩ := (join_outputs f g n (g b)).mpr (Or.inr ⟨b, by omega, rfl⟩)
  exact ⟨m, hv⟩

/-- Hypotheses on the family of streams fed to `flat`: each stream is
strictly increasing, the heads increase, and the streams are pairwise
disjoint. -/
structure GoodFam (F : Nat → Nat → Nat) : Prop where
  mono : ∀ k, StrictMono (F k)
  head : ∀ k, F k 0 < F (k + 1) 0
  disj : ∀ k j i i2, k ≠ j → F k i ≠ F j i2

theorem GoodFam.head_lt {F : Nat → Nat → Nat} (hF : GoodFam F) :
    ∀ k j, k < j → F k 0 < F j 0 := by
  intro k j
  induction j with
  | zero => omega
  | succ j ih =>
    intro hkj
    rcases Nat.lt_or_ge k j with h | h
    · exact lt_trans (ih h) (hF.head j)
    · have hkj2 : k = j := by omega
      rw [hkj2]
      exact hF.head j

theorem GoodFam.lt_of_lt {F : Nat → Nat → Nat} (hF : GoodFam F) {k j : Nat}
    (h : k < j) (i : Nat) : F k 0 < F j i :=
  lt_of_lt_of_le (hF.head_lt k j h) ((hF.mono j).monotone (Nat.zero_le i))

/-- Every output of `flat` at fuel `d` based at stream `k` comes from one
of the streams `k ≤ j ≤ k + d`. -/
theorem flatF_mem (F : Nat → Nat → Nat) :
    ∀ d k n, ∃ j i, k ≤ j ∧ j ≤ k + d ∧ flatF F d k n = F j i := by
  intro d
  induction d with
  | zero =>
    intro k n
    exact ⟨k, n, le_refl k, by omega, rfl⟩
  | succ d ih =>
    intro k n
    match n with
    | 0 => exact ⟨k, 0, le_refl k, by omega, rfl⟩
    | n+1 =>
      rcases joinS_mem (fun i => F k (i + 1)) (flatF F d (k + 1)) n with ⟨i, hv⟩ | ⟨j2, hv⟩
      · exact ⟨k, i + 1, le_refl k, by omega, hv⟩
      · obtain ⟨j, i, hj1, hj2, hji⟩ := ih (k + 1) j2
        exact ⟨j, i, by omega, by omega,
          by rw [show flatF F (d+1) k (n+1) =
            joinS (fun i => F k (i + 1)) (flatF F d (k + 1)) n from rfl, hv, hji]⟩

theorem flatF_strictMono {F : Nat → Nat → Nat} (hF : GoodFam F) :
    ∀ d k, StrictMono (flatF F d k) := by
  intro d
  induction d with
  | zero =>
    intro k
    exact hF.mono k
  | succ d ih =>
    intro k
    have hdisj : ∀ i j, (fun i => F k (i + 1)) i ≠ flatF F d (k + 1) j := by
      intro i j hne
      obtain ⟨j2, i2, hj1, _, hji⟩ := flatF_mem F d (k + 1) j
      rw [hji] at hne
      exact hF.disj k j2 (i + 1) i2 (by omega) hne
    have htail : StrictMono (fun i => F k (i + 1)) := fun a b hab => hF.mono k (by omega)
    have hjs : StrictMono (joinS (fun i => F k (i + 1)) (flatF F d (k + 1))) :=
      joinS_strictMono htail (ih (k + 1)) hdisj
    apply strictMono_nat_of_lt_succ
    intro n
    match n with
    | 0 =>
      show F k 0 < joinS (fun i => F k (i + 1)) (flatF F d (k + 1)) 0
      rw [joinS]
      split
      · exact hF.mono k (by omega)
      · obtain ⟨j2, i2, hj1, _, hji⟩ :=
          flatF_mem F d (k + 1) (joinPtr (fun i => F k (i + 1)) (flatF F d (k + 1)) 0).2
        rw [hji]
        exact hF.lt_of_lt (by omega) i2
    | n+1 =>
      show joinS (fun i => F k (i + 1)) (flatF F d (k + 1)) n <
        joinS (fun i => F k (i + 1)) (flatF F d (k + 1)) (n + 1)
      exact hjs (by omega)

theorem flatF_complete {F : Nat → Nat → Nat} (hF : GoodFam F) :
    ∀ d k j i, k ≤ j → j ≤ k + d → ∃ n, flatF F d k n = F j i := by
  intro d
  induction d with
  | zero =>
    intro k j i h1 h2
    have hjk : j = k := by omega
    rw [hjk]
    exact ⟨i, rfl⟩
  | succ d ih =>
    intro k j i h1 h2
    have htail : StrictMono (fun i2 => F k (i2 + 1)) := fun a b hab => hF.mono k (by omega)
    have hflat : StrictMono (flatF F d (k + 1)) := flatF_strictMono hF d (k + 1)
    rcases Nat.lt_or_ge k j with h | h
    · obtain ⟨n2, hn2⟩ := ih (k + 1) j i (by omega) (by omega)
      obtain ⟨m, hm⟩ := joinS_complete_right htail hflat n2
      refine ⟨m + 1, ?_⟩
      show joinS (fun i2 => F k (i2 + 1)) (flatF F d (k + 1)) m = F j i
      rw [hm, hn2]
    · have hjk : j = k := by omega
      rw [hjk]
      match i with
      | 0 => exact ⟨0, rfl⟩
      | i+1 =>
        obtain ⟨m, hm⟩ := joinS_complete_left htail hflat i
        exact ⟨m + 1, hm⟩

end Potencias

namespace Potencias

open LazySeq Primes

theorem nth_lt_iff_lt_count_gen {S : Nat → Prop} [DecidablePred S]
    (hinf : (setOf S).Infinite) {i B : Nat} :
    Nat.nth S i < B ↔ i < Nat.count S B := by
  constructor
  · intro h
    have h1 : Nat.count S (Nat.nth S i) = i :=
      Nat.count_nth (fun hf => absurd hf hinf)
    have h2 := Nat.count_succ S (Nat.nth S i)
    rw [if_pos (Nat.nth_mem_of_infinite hinf i)] at h2
    have h3 := Nat.count_monotone S (show Nat.nth S i + 1 ≤ B by omega)
    omega
  · intro h
    by_contra hc
    have h3 := Nat.count_monotone S (show B ≤ Nat.nth S i by omega)
    have h1 : Nat.count S (Nat.nth S i) = i :=
      Nat.count_nth (fun hf => absurd hf hinf)
    omega

theorem count_congr_below {S T : Nat → Prop} [DecidablePred S] [DecidablePred T] {B : Nat}
    (h : ∀ x, x < B → (S x ↔ T x)) : Nat.count S B = Nat.count T B := by
  rw [Nat.count, Nat.count]
  apply List.countP_congr
  intro x hx
  have hxB : x < B := List.mem_range.mp hx
  simp only [decide_eq_true_iff]
  exact h x hxB

theorem count_mono_pred {S T : Nat → Prop} [DecidablePred S] [DecidablePred T] {B : Nat}
    (h : ∀ x, S x → T x) : Nat.count S B ≤ Nat.count T B := by
  rw [Nat.count, Nat.count]
  apply List.countP_mono_left
  intro x hx hSx
  simp only [decide_eq_true_iff] at hSx ⊢
  exact h x hSx

theorem nth_le_nth_of_sub {S T : Nat → Prop} [DecidablePred S] [DecidablePred T]
    (hS : (setOf S).Infinite) (hT : (setOf T).Infinite)
    (hsub : ∀ x, S x → T x) (n : Nat) : Nat.nth T n ≤ Nat.nth S n := by
  have h1 : n < Nat.count S (Nat.nth S n + 1) := (nth_lt_iff_lt_count_gen hS).mp (by omega)
  have h2 : Nat.count S (Nat.nth S n + 1) ≤ Nat.count T (Nat.nth S n + 1) := count_mono_pred hsub
  have h3 : Nat.nth T n < Nat.nth S n + 1 := (nth_lt_iff_lt_count_gen hT).mpr (by omega)
  omega

theorem nth_eq_of_agree_below {S T : Nat → Prop} [DecidablePred S] [DecidablePred T]
    (hS : (setOf S).Infinite) (hT : (setOf T).Infinite) {B : Nat}
    (hsub : ∀ x, S x → T x) (hrev : ∀ x, x < B → T x → S x) {n : Nat}
    (hlt : Nat.nth T n < B) : Nat.nth S n = Nat.nth T n := by
  have h1 : n < Nat.count T (Nat.nth T n + 1) := (nth_lt_iff_lt_count_gen hT).mp (by omega)
  have h2 : Nat.count S (Nat.nth T n + 1) = Nat.count T (Nat.nth T n + 1) :=
    count_congr_below (fun x hx => ⟨fun h => hsub x h, fun h => hrev x (by omega) h⟩)
  have h3 : Nat.nth S n < Nat.nth T n + 1 := (nth_lt_iff_lt_count_gen hS).mpr (by omega)
  have h4 := nth_le_nth_of_sub hS hT hsub n
  omega

theorem count_ge_of_enum {S : Nat → Prop} [DecidablePred S] (h : Nat → Nat)
    (hm : StrictMono h) (hmem : ∀ n, S (h n)) : ∀ m, m + 1 ≤ Nat.count S (h m + 1) := by
  intro m
  induction m with
  | zero =>
    have h2 := Nat.count_succ S (h 0)
    rw [if_pos (hmem 0)] at h2
    omega
  | succ m ih =>
    have h1 : h m + 1 ≤ h (m + 1) := hm (by omega)
    have h2 := Nat.count_monotone S h1
    have h3 := Nat.count_succ S (h (m + 1))
    rw [if_pos (hmem (m + 1))] at h3
    omega

/-- A strictly monotone enumeration of `S` that misses nothing below any
of its outputs is `Nat.nth S`. -/
theorem eq_nth_of_enum {S : Nat → Prop} [DecidablePred S] (hinf : (setOf S).Infinite)
    (h : Nat → Nat) (hm : StrictMono h) (hmem : ∀ n, S (h n))
    (hcompl : ∀ n x, S x → x < h n → ∃ m, m < n ∧ h m = x) :
    ∀ n, h n = Nat.nth S n := by
  intro n
  induction n using Nat.strong_induction_on with
  | _ n ih =>
    have hle : Nat.nth S n ≤ h n := by
      have hcnt := count_ge_of_enum h hm hmem n
      have := (nth_lt_iff_lt_count_gen hinf).mpr (show n < Nat.count S (h n + 1) by omega)
      omega
    have hge : h n ≤ Nat.nth S n := by
      by_contra hc
      push_neg at hc
      obtain ⟨m, hm2, hv⟩ := hcompl n _ (Nat.nth_mem_of_infinite hinf n) hc
      have he := ih m hm2
      rw [he] at hv
      have hlt := (Nat.nth_lt_nth hinf).mpr hm2
      omega
    omega

/-- Bertrand's postulate gives the crude bound `p_n ≤ 2 ^ (n + 1)`. -/
theorem nth_prime_le_two_pow : ∀ n, Nat.nth Nat.Prime n ≤ 2 ^ (n + 1) := by
  intro n
  induction n with
  | zero =>
    rw [nth_prime_zero]
    norm_num
  | succ n ih =>
    obtain ⟨r, hr, h1, h2⟩ := Nat.bertrand (Nat.nth Nat.Prime n) (by
      have h3 := (nth_prime_prime n).two_le
      omega)
    have h3 := nth_succ_le_of_prime_gt hr h1
    have h4 : (2:Nat) ^ (n + 1 + 1) = 2 ^ (n + 1) * 2 := pow_succ 2 (n + 1)
    omega

/-- Prime powers with distinct `2 ^ k` exponents are distinct. -/
theorem pow_pow_disj {p q k j : Nat} (hp : p.Prime) (hq : q.Prime) (hkj : k ≠ j) :
    p ^ 2 ^ k ≠ q ^ 2 ^ j := by
  intro he
  have hpq : p = q := by
    have hdvd : p ∣ q ^ 2 ^ j := by
      rw [← he]
      exact dvd_pow_self p (Nat.two_pow_pos k).ne'
    have hpq2 : p ∣ q := hp.prime.dvd_of_dvd_pow hdvd
    exact (Nat.prime_dvd_prime_iff_eq hp hq).mp hpq2
  rw [hpq] at he
  have h2 : 2 ^ k = 2 ^ j := Nat.pow_right_injective hq.two_le he
  exact hkj (Nat.pow_right_injective (by omega) h2)

theorem mkiterS_eq (k i : Nat) : mkiterS k i = (Nat.nth Nat.Prime i) ^ 2 ^ k := by
  show (fullVal primesInit i) ^ 2 ^ k = _
  rw [fullVal_primesInit]

theorem goodFam_mkiterS : GoodFam mkiterS := by
  refine ⟨?_, ?_, ?_⟩
  · intro k a b hab
    show mkiterS k a < mkiterS k b
    rw [mkiterS_eq, mkiterS_eq]
    exact Nat.pow_lt_pow_left (nth_prime_lt_nth_prime.mpr hab) (Nat.two_pow_pos k).ne'
  · intro k
    rw [mkiterS_eq, mkiterS_eq, nth_prime_zero]
    exact Nat.pow_lt_pow_right (by omega) (Nat.pow_lt_pow_right (by omega) (by omega))
  · intro k j i i2 hkj
    rw [mkiterS_eq, mkiterS_eq]
    exact pow_pow_disj (nth_prime_prime i) (nth_prime_prime i2) hkj

/-- The set of values produced by the streams `mkiter(0) .. mkiter(d)`. -/
def UD (d : Nat) (m : Nat) : Prop := ∃ k i, k ≤ d ∧ mkiterS k i = m

theorem prime_sub_UD (d : Nat) : ∀ x, Nat.Prime x → UD d x := by
  intro x hx
  refine ⟨0, Nat.count Nat.Prime x, by omega, ?_⟩
  rw [mkiterS_eq, Nat.nth_count hx]
  norm_num

theorem UD_infinite (d : Nat) : (setOf (UD d)).Infinite :=
  Nat.infinite_setOf_prime.mono (prime_sub_UD d)

theorem prime_sub_FD : ∀ x, Nat.Prime x → FD x := by
  intro x hx
  exact ⟨x, 0, hx, by norm_num⟩

theorem FD_infinite : (setOf FD).Infinite :=
  Nat.infinite_setOf_prime.mono prime_sub_FD

theorem UD_sub_FD (d : Nat) : ∀ x, UD d x → FD x := by
  rintro x ⟨k, i, _, hv⟩
  rw [mkiterS_eq] at hv
  exact ⟨Nat.nth Nat.Prime i, k, nth_prime_prime i, hv.symm⟩

/-- Below `2 ^ 2 ^ (d + 1)` every Fermi-Dirac number comes from one of
the first `d + 1` streams. -/
theorem FD_below (d : Nat) : ∀ x, x < 2 ^ 2 ^ (d + 1) → FD x → UD d x := by
  rintro x hx ⟨p, k, hp, rfl⟩
  have hkd : k ≤ d := by
    by_contra hc
    push_neg at hc
    have h1 : 2 ^ 2 ^ k ≤ p ^ 2 ^ k := Nat.pow_le_pow_left hp.two_le (2 ^ k)
    have h2 : (2:Nat) ^ (d + 1) ≤ 2 ^ k := Nat.pow_le_pow_right (by omega) (by omega)
    have h3 : (2:Nat) ^ 2 ^ (d + 1) ≤ 2 ^ 2 ^ k := Nat.pow_le_pow_right (by omega) h2
    omega
  refine ⟨k, Nat.count Nat.Prime p, hkd, ?_⟩
  rw [mkiterS_eq, Nat.nth_count hp]

theorem potenciasStream_mem_UD (d n : Nat) : UD d (potenciasStream d n) := by
  obtain ⟨j, i, _, hj2, hv⟩ := flatF_mem mkiterS d 0 n
  exact ⟨j, i, by omega, hv.symm⟩

/-- At every fuel level the merged stream enumerates the union of the
first `d + 1` streams in increasing order. -/
theorem potenciasStream_eq_nth_UD (d : Nat) : ∀ n, potenciasStream d n = Nat.nth (UD d) n := by
  classical
  apply eq_nth_of_enum (UD_infinite d) _ (flatF_strictMono goodFam_mkiterS d 0)
  · intro n
    exact potenciasStream_mem_UD d n
  · intro n x hUx hlt
    obtain ⟨k, i, hk, hv⟩ := hUx
    obtain ⟨n0, hn0⟩ := flatF_complete goodFam_mkiterS d 0 k i (by omega) (by omega)
    refine ⟨n0, ?_, by rw [hn0, hv]⟩
    have hx0 : flatF mkiterS d 0 n0 = x := by rw [hn0, hv]
    have hmono := (flatF_strictMono goodFam_mkiterS d 0).lt_iff_lt (a := n0) (b := n)
    rw [hx0] at hmono
    exact hmono.mp hlt

/-- Any output below `2 ^ 2 ^ (d + 1)` is unaffected by the fuel cutoff:
it is the true `n`-th Fermi-Dirac number. -/
theorem potenciasStream_eq_nth_FD {d n : Nat} (h : potenciasStream d n < 2 ^ 2 ^ (d + 1)) :
    potenciasStream d n = Nat.nth FD n := by
  classical
  have h1 := potenciasStream_eq_nth_UD d n
  have h2 : Nat.nth FD n ≤ Nat.nth (UD d) n :=
    nth_le_nth_of_sub (UD_infinite d) FD_infinite (UD_sub_FD d) n
  have h3 : Nat.nth FD n < 2 ^ 2 ^ (d + 1) := by omega
  have h4 : Nat.nth (UD d) n = Nat.nth FD n :=
    nth_eq_of_agree_below (UD_infinite d) FD_infinite (UD_sub_FD d) (FD_below d) h3
  rw [h1, h4]

/-- Fuel `d ≥ n` always suffices for index `n`. -/
theorem potenciasStream_fuel_le {d n : Nat} (h : n ≤ d) :
    potenciasStream d n = Nat.nth FD n := by
  apply potenciasStream_eq_nth_FD
  have h1 := potenciasStream_eq_nth_UD d n
  have h2 : Nat.nth (UD d) n ≤ Nat.nth Nat.Prime n := by
    classical
    exact nth_le_nth_of_sub Nat.infinite_setOf_prime (UD_infinite d) (prime_sub_UD d) n
  have h3 := nth_prime_le_two_pow n
  have h4 : 2 ^ (n + 1) < 2 ^ 2 ^ (d + 1) := by
    apply Nat.pow_lt_pow_right (by omega)
    have h5 := Nat.lt_two_pow (d + 1)
    omega
  omega

theorem fullVal_potenciasInit (d i : Nat) : fullVal (potenciasInit d) i = potenciasStream d i := by
  rw [fullVal]
  rw [if_neg (show ¬ i < (potenciasInit d).size from Nat.not_lt.mpr (Nat.zero_le i))]
  show potenciasStream d (0 + (i - 0)) = potenciasStream d i
  rw [Nat.zero_add, Nat.sub_zero]

end Potencias

namespace Potencias

open LazySeq Primes

set_option maxRecDepth 10000 in
set_option maxHeartbeats 2000000 in
theorem potencias_first14 :
    (List.range 14).map (potenciasStream 5) =
      [2, 3, 4, 5, 7, 9, 11, 13, 16, 17, 19, 23, 25, 29] := by
  decide

set_option maxRecDepth 10000 in
set_option maxHeartbeats 4000000 in
theorem potencias_at_60 : potenciasStream 5 60 = 241 := by
  decide

/-- Claim C3: the merged `potencias` stream enumerates, in increasing
order, exactly the Fermi-Dirac numbers `p ^ 2 ^ k` (`p` prime): at
every fuel level it is strictly increasing and produces only
Fermi-Dirac numbers; with fuel at least `n` (or whenever the output is
below the fuel horizon `2 ^ 2 ^ (d + 1)`) index `n` holds exactly the
`n`-th Fermi-Dirac number; indices 0-13 hold
`[2, 3, 4, 5, 7, 9, 11, 13, 16, 17, 19, 23, 25, 29]`, index 60 holds
`241` (the 61st Fermi-Dirac number), and `at` exposes exactly these
values. -/
theorem claim_C3_fermiDirac :
    (∀ d, StrictMono (potenciasStream d)) ∧
    (∀ d n, FD (potenciasStream d n)) ∧
    (∀ d n, n ≤ d → potenciasStream d n = Nat.nth FD n) ∧
    (∀ d n, potenciasStream d n < 2 ^ 2 ^ (d + 1) → potenciasStream d n = Nat.nth FD n) ∧
    (List.range 14).map (potenciasStream 5) =
      [2, 3, 4, 5, 7, 9, 11, 13, 16, 17, 19, 23, 25, 29] ∧
    potenciasStream 5 60 = 241 ∧
    Nat.nth FD 60 = 241 ∧
    (∀ d i, getitem_int (potenciasInit d) (Int.ofNat i) =
      Except.ok (potenciasStream d i, forceTo (potenciasInit d) i)) := by
  refine ⟨?_, ?_, ?_, ?_, ?_, ?_, ?_, ?_⟩
  · exact fun d => flatF_strictMono goodFam_mkiterS d 0
  · exact fun d n => UD_sub_FD d _ (potenciasStream_mem_UD d n)
  · exact fun d n h => potenciasStream_fuel_le h
  · exact fun d n h => potenciasStream_eq_nth_FD h
  · exact potencias_first14
  · exact potencias_at_60
  · rw [← potenciasStream_eq_nth_FD (d := 5) (n := 60) (by rw [potencias_at_60]; norm_num)]
    exact potencias_at_60
  · intro d i
    rw [getitem_int_nat, fullVal_potenciasInit]

end Potencias
